import Mathlib

/-!
Verification development for the regl-graph rendering/interaction engine
(`src/graph/graph.js`, `src/graph/commands.js` and the shader sources).

Modelling conventions:
* JavaScript numbers are modelled as rationals (`ℚ`) wherever the source only
  performs field arithmetic and comparisons; the square root and base-2
  logarithm used by `raycast` force the real numbers (`ℝ`) there.
* `undefined` values are modelled with `Option`; JavaScript truthiness tests
  on numbers (`x ? a : b`, `if (x)`) are modelled as "present and nonzero"
  (`ℚ` has no `NaN`, which is also falsy in JS).
* Code that can throw (`TypeError` on member access of `undefined`, explicit
  `throw new Error`) is modelled with `Except`.
* gl-matrix `mat3` values are column-major 9-element arrays; we model them as
  a structure with fields `m0` … `m8` using gl-matrix's indices.
-/

/-- JavaScript `Math.round`: round half up (toward +∞). -/
def jsRound (q : ℚ) : ℤ := ⌊q + 1/2⌋

/-- JavaScript `Math.ceil`. -/
def jsCeil (q : ℚ) : ℤ := ⌈q⌉

/-- d3 `scaleLinear().domain([d0, d1]).range([r0, r1])` applied to `x`.
d3's `normalize(a, b)` divides by `b - a` only when it is nonzero and
otherwise returns the constant `0.5`, so a degenerate domain maps every
input to the midpoint of the range instead of dividing by zero. -/
def scaleLinearQ (d0 d1 r0 r1 x : ℚ) : ℚ :=
  if d0 = d1 then r0 + (r1 - r0) / 2
  else r0 + ((x - d0) / (d1 - d0)) * (r1 - r0)

/-- JS truthiness of a possibly-`undefined` number: `undefined`, `0` (and
`NaN`, unrepresentable in `ℚ`) are falsy. -/
def qTruthy (o : Option ℚ) : Bool :=
  match o with
  | some v => v != 0
  | none => false

/-- JS truthiness of a possibly-`undefined` node id (numeric ids: `0` falsy). -/
def idTruthy (o : Option ℕ) : Bool :=
  match o with
  | some v => v != 0
  | none => false

/-! ## gl-matrix `mat3` (column-major) -/

/-- A gl-matrix 3×3 matrix; `m0 m1 m2` is the first column, etc. -/
structure Mat3 where
  m0 : ℚ
  m1 : ℚ
  m2 : ℚ
  m3 : ℚ
  m4 : ℚ
  m5 : ℚ
  m6 : ℚ
  m7 : ℚ
  m8 : ℚ
deriving DecidableEq, Repr

/-- gl-matrix `mat3.identity` / `mat3.create`. -/
def mat3Identity : Mat3 := ⟨1, 0, 0, 0, 1, 0, 0, 0, 1⟩

/-- gl-matrix `mat3.multiply(out, a, b)` (returns `a * b`). -/
def mat3Multiply (a b : Mat3) : Mat3 :=
  ⟨b.m0 * a.m0 + b.m1 * a.m3 + b.m2 * a.m6,
   b.m0 * a.m1 + b.m1 * a.m4 + b.m2 * a.m7,
   b.m0 * a.m2 + b.m1 * a.m5 + b.m2 * a.m8,
   b.m3 * a.m0 + b.m4 * a.m3 + b.m5 * a.m6,
   b.m3 * a.m1 + b.m4 * a.m4 + b.m5 * a.m7,
   b.m3 * a.m2 + b.m4 * a.m5 + b.m5 * a.m8,
   b.m6 * a.m0 + b.m7 * a.m3 + b.m8 * a.m6,
   b.m6 * a.m1 + b.m7 * a.m4 + b.m8 * a.m7,
   b.m6 * a.m2 + b.m7 * a.m5 + b.m8 * a.m8⟩

/-- The determinant computed by gl-matrix `mat3.invert`. -/
def mat3Det (a : Mat3) : ℚ :=
  a.m0 * (a.m8 * a.m4 - a.m5 * a.m7) +
  a.m1 * (-a.m8 * a.m3 + a.m5 * a.m6) +
  a.m2 * (a.m7 * a.m3 - a.m4 * a.m6)

/-- gl-matrix `mat3.invert(out, a)`: returns `null` (here `none`) when the
determinant is zero (JS: `if (!det) return null`). -/
def mat3Invert (a : Mat3) : Option Mat3 :=
  let b01 := a.m8 * a.m4 - a.m5 * a.m7
  let b11 := -a.m8 * a.m3 + a.m5 * a.m6
  let b21 := a.m7 * a.m3 - a.m4 * a.m6
  let det := a.m0 * b01 + a.m1 * b11 + a.m2 * b21
  if det = 0 then none
  else some
    ⟨b01 / det,
     (-a.m8 * a.m1 + a.m2 * a.m7) / det,
     (a.m5 * a.m1 - a.m2 * a.m4) / det,
     b11 / det,
     (a.m8 * a.m0 - a.m2 * a.m6) / det,
     (-a.m5 * a.m0 + a.m2 * a.m3) / det,
     b21 / det,
     (-a.m7 * a.m0 + a.m1 * a.m6) / det,
     (a.m4 * a.m0 - a.m1 * a.m3) / det⟩

/-- gl-matrix `vec3.transformMat3(out, a, m)`. -/
def vec3TransformMat3 (v : ℚ × ℚ × ℚ) (m : Mat3) : ℚ × ℚ × ℚ :=
  (v.1 * m.m0 + v.2.1 * m.m3 + v.2.2 * m.m6,
   v.1 * m.m1 + v.2.1 * m.m4 + v.2.2 * m.m7,
   v.1 * m.m2 + v.2.1 * m.m5 + v.2.2 * m.m8)

/-- gl-matrix `mat3.projection(out, width, height)`.
(JS divides by the viewport size; a zero-sized viewport yields `Infinity`
in JS, `0` in `ℚ` — no theorem below depends on that case.) -/
def mat3Projection (width height : ℚ) : Mat3 :=
  ⟨2 / width, 0, 0, 0, -2 / height, 0, -1, 1, 1⟩

/-- `ReglGraph.updateTransform(x, y, scale)`: identity, then translate by
`[x, y]`, then scale by `[scale, scale]`, then translate by `[0, 0]`.
In column-major form the result is `[k, 0, 0, 0, k, 0, x, y, 1]`. -/
def updateTransform (x y scale : ℚ) : Mat3 :=
  ⟨scale, 0, 0, 0, scale, 0, x, y, 1⟩

/-- `ReglGraph.getScatterGlPos(pos)`: inverts `projection * transform`,
falling back to the identity matrix when the composed matrix is singular
(`if (!mvp) mvp = [1,0,0, 0,1,0, 0,0,1]`), transforms the homogeneous
NDC point and returns its first two components. -/
def getScatterGlPos (projection transform : Mat3) (pos : ℚ × ℚ) : ℚ × ℚ :=
  let v : ℚ × ℚ × ℚ := (pos.1, pos.2, 1)
  let mvp := (mat3Invert (mat3Multiply projection transform)).getD mat3Identity
  let w := vec3TransformMat3 v mvp
  (w.1, w.2.1)

theorem mat3Invert_eq_none_iff (a : Mat3) : mat3Invert a = none ↔ mat3Det a = 0 := by
  unfold mat3Invert mat3Det
  by_cases h : a.m0 * (a.m8 * a.m4 - a.m5 * a.m7) +
      a.m1 * (-a.m8 * a.m3 + a.m5 * a.m6) +
      a.m2 * (a.m7 * a.m3 - a.m4 * a.m6) = 0 <;> simp [h]

theorem getScatterGlPos_singular (projection transform : Mat3) (pos : ℚ × ℚ)
    (h : mat3Det (mat3Multiply projection transform) = 0) :
    getScatterGlPos projection transform pos = pos := by
  unfold getScatterGlPos
  rw [(mat3Invert_eq_none_iff _).mpr h]
  simp [mat3Identity, vec3TransformMat3]

/-! ## Graph neighbours (ngraph.graph, as used by `getNodeNeighbors`) -/

/-- The graph model: nodes are identified with their load indices
`0 … n-1` (`nodeIndex.get(i) = id` and `getNode(id).data.index = i` are the
identity in this model), and `links` is the insertion-ordered link list. -/
structure Graph where
  n : ℕ
  links : List (ℕ × ℕ)
deriving DecidableEq, Repr

/-- `ReglGraph.getNodeNeighbors(nodeID, true)` after `nodeIndex.get(index)`:
ngraph's `forEachLinkedNode` enumerates the links touching the node and
yields the opposite endpoint's index; a missing node (e.g. the `-1`
sentinel, for which `nodeIndex.get` returns `undefined`) yields no links. -/
def getNodeNeighbors (g : Graph) (idx : ℤ) : List ℤ :=
  if 0 ≤ idx ∧ idx < (g.n : ℤ) then
    (g.links.filter (fun l => l.1 == idx.toNat || l.2 == idx.toNat)).map
      (fun l => if l.1 = idx.toNat then (l.2 : ℤ) else (l.1 : ℤ))
  else []

/-! ## Interaction state and events -/

/-- The subset of `this.state` the interaction claims are about. -/
structure IState where
  mousePosition : ℚ × ℚ
  mouseDown : Bool
  hoveredNode : ℤ
  hoverNeighbors : List ℤ
  selectedNode : ℤ
  selectedNeighbors : List ℤ
  highlightedNodes : List ℕ
deriving DecidableEq, Repr

/-- Library events raised via `raiseEvent` during the modelled operations. -/
inductive Event
  | nodeout (idx : ℤ)
  | nodeover (idx : ℤ)
  | nodeselect (idx : ℤ)
  | clickEv (node : Option ℤ)
deriving DecidableEq, Repr

inductive CursorStyle
  | pointer
  | defaultStyle
  | move
deriving DecidableEq, Repr

inductive TooltipAction
  | showTip (idx : ℤ)
  | hideTip
deriving DecidableEq, Repr

/-- `ReglGraph.setHoverNeighbors(index = null)`. -/
def setHoverNeighbors (g : Graph) (st : IState) (index : Option ℤ) : IState :=
  match index with
  | some idx => { st with hoverNeighbors := getNodeNeighbors g idx }
  | none => { st with hoverNeighbors := [] }

/-- `ReglGraph.setSelectedNeighbors(index = null)`. -/
def setSelectedNeighbors (g : Graph) (st : IState) (index : Option ℤ) : IState :=
  match index with
  | some idx => { st with selectedNeighbors := getNodeNeighbors g idx }
  | none => { st with selectedNeighbors := [] }

/-- `ReglGraph.hoveredNodeWatcher(value, oldValue)`: raises `nodeout` when
the hover was cleared, otherwise `nodeover`. -/
def hoveredNodeWatcher (value oldValue : ℤ) : List Event :=
  if value = -1 ∧ oldValue ≠ -1 then [Event.nodeout oldValue] else [Event.nodeover value]

/-- `ReglGraph.setHoveredNode(idx = -1)`: when the index changes, the field
is written first (via `this.set`, which fires the watcher) and
`setHoverNeighbors(idx)` runs afterwards; when the index is unchanged,
`setHoverNeighbors()` is called with no argument, clearing the neighbour
set. -/
def setHoveredNode (g : Graph) (st : IState) (idx : ℤ) : IState × List Event :=
  if st.hoveredNode ≠ idx then
    let evs := hoveredNodeWatcher idx st.hoveredNode
    let st1 := setHoverNeighbors g { st with hoveredNode := idx } (some idx)
    (st1, evs)
  else
    (setHoverNeighbors g st none, [])

/-- `ReglGraph.setSelectedNode(idx = -1)`. -/
def setSelectedNode (g : Graph) (st : IState) (idx : ℤ) : IState × List Event :=
  if st.selectedNode ≠ idx then
    let st1 := { st with selectedNode := idx }
    if idx ≠ -1 then
      (setSelectedNeighbors g st1 (some idx), [Event.nodeselect idx])
    else
      (setSelectedNeighbors g st1 none, [])
  else (st, [])

/-- `ReglGraph.highlight(nodesIds = null)`.  `nodesIds.map(id =>
graph.getNode(id).data.index)`: in this model a node's id and its load
index coincide, so resolution is the identity (JS throws for unknown ids;
the claims quantify over ids of loaded nodes). -/
def highlight (g : Graph) (st : IState) (nodesIds : Option (List ℕ)) : IState × List Event :=
  match nodesIds with
  | some ids =>
    let st1 := { st with highlightedNodes := ids }
    setSelectedNode g st1 (-1)
  | none => ({ st with highlightedNodes := [] }, [])

/-! ## Picking (`getScatterGlPos` inputs, `raycast`) -/

/-- The engine environment read by `raycast` and the pointer handlers:
canvas size, device pixel ratio, the current transform state, the
KDBush-indexed node positions (`searchIndex.points`, holding the x/y of
`matrices.nodesPositions`) and the graph. -/
structure Env where
  width : ℚ
  height : ℚ
  dpr : ℚ
  projection : Mat3
  transform : Mat3
  points : List (ℚ × ℚ)
  graph : Graph

/-- `ReglGraph.getNdcX`. -/
def getNdcX (e : Env) (x : ℚ) : ℚ := -1 + (x / e.width) * 2

/-- `ReglGraph.getNdcY`. -/
def getNdcY (e : Env) (y : ℚ) : ℚ := 1 + (y / e.height) * -2

/-- `ReglGraph.getMouseGlPos`. -/
def getMouseGlPos (e : Env) (mouse : ℚ × ℚ) : ℚ × ℚ :=
  (getNdcX e mouse.1, getNdcY e mouse.2)

/-- The cursor's world position as `raycast` computes it:
`getScatterGlPos()` applied to the mouse NDC position. -/
def cursorWorldPos (e : Env) (mouse : ℚ × ℚ) : ℚ × ℚ :=
  getScatterGlPos e.projection e.transform (getMouseGlPos e mouse)

/-- `ReglGraph.minNumber` (`a < b ? a : b`). -/
noncomputable def minNumber (a b : ℝ) : ℝ := if a < b then a else b

/-- `ReglGraph.maxNumber` (`a > b ? a : b`). -/
noncomputable def maxNumber (a b : ℝ) : ℝ := if a > b then a else b

/-- JavaScript `Math.log2`. -/
noncomputable def jsLog2 (x : ℝ) : ℝ := Real.logb 2 x

/-- `ReglGraph.distance`: `Math.sqrt((x1 - x2) ** 2 + (y1 - y2) ** 2)`. -/
noncomputable def distance (x1 y1 x2 y2 : ℚ) : ℝ :=
  Real.sqrt (((x1 - x2 : ℚ) : ℝ) ^ 2 + ((y1 - y2 : ℚ) : ℝ) ^ 2)

/-- The `scaledPointSize` computed at the top of `raycast`: the source sets
`pointSize = 1000` and `scaling = 1` (both constants — `scaling` is *not*
read from the transform), then
`5 * pointSize * (minNumber(1, scaling) + log2(maxNumber(1, scaling))) * devicePixelRatio`. -/
noncomputable def scaledPointSize (e : Env) : ℝ :=
  let pointSize : ℝ := 1000
  let scaling : ℝ := 1
  5 * pointSize * (minNumber 1 scaling + jsLog2 (maxNumber 1 scaling)) * (e.dpr : ℝ)

/-- `searchIndex.range(minX, minY, maxX, maxY)` (KDBush): the indices of all
points inside the inclusive box, paired with the point
(`searchIndex.points[idx]`) the `raycast` loop immediately looks up.
KDBush returns exactly this index set (tree order; no claim below depends
on the order, modelled here in index order). -/
noncomputable def rangeQueryAux (minX minY maxX maxY : ℝ) :
    List (ℚ × ℚ) → ℕ → List (ℕ × (ℚ × ℚ))
  | [], _ => []
  | p :: rest, i =>
    if minX ≤ (p.1 : ℝ) ∧ (p.1 : ℝ) ≤ maxX ∧ minY ≤ (p.2 : ℝ) ∧ (p.2 : ℝ) ≤ maxY then
      (i, p) :: rangeQueryAux minX minY maxX maxY rest (i + 1)
    else rangeQueryAux minX minY maxX maxY rest (i + 1)

/-- One iteration of `raycast`'s `pointsInBBox.forEach`: keep the candidate
whenever its distance to the cursor is strictly below the running minimum
(`minDist` starts at `scaledPointSize`). -/
noncomputable def raycastStep (w : ℚ × ℚ) (acc : ℝ × Option ℕ) (ip : ℕ × (ℚ × ℚ)) :
    ℝ × Option ℕ :=
  let d := distance ip.2.1 ip.2.2 w.1 w.2
  if d < acc.1 then (d, some ip.1) else acc

/-- `ReglGraph.raycast()`: range-query the index around the cursor's world
position, then select the strictly closest candidate; `closestPoint`
starts `undefined` (`none`) and is returned bare. -/
noncomputable def raycast (e : Env) (mouse : ℚ × ℚ) : Option ℕ :=
  let w := cursorWorldPos e mouse
  let sps := scaledPointSize e
  let xNormalizedScaledPointSize := sps / (e.width : ℝ)
  let yNormalizedScaledPointSize := sps / (e.height : ℝ)
  let pointsInBBox := rangeQueryAux
    ((w.1 : ℝ) - xNormalizedScaledPointSize) ((w.2 : ℝ) - yNormalizedScaledPointSize)
    ((w.1 : ℝ) + xNormalizedScaledPointSize) ((w.2 : ℝ) + yNormalizedScaledPointSize)
    e.points 0
  (pointsInBBox.foldl (raycastStep w) (sps, none)).2

/-! ## Pointer handlers -/

/-- Result of a `mousemove`: the new state, events raised, cursor style set
and tooltip action taken (`none` = untouched). -/
structure MoveOut where
  st : IState
  events : List Event
  cursor : Option CursorStyle
  tooltip : Option TooltipAction
deriving DecidableEq, Repr

/-- The body of `handleMouseMove` after `raycast` returned `closestPoint`:
`if (closestPoint)` — JS truthiness, so `undefined` *and index 0* take the
miss branch. -/
def mouseMoveCore (g : Graph) (closestPoint : Option ℕ) (st : IState) : MoveOut :=
  match closestPoint with
  | some i =>
    if i ≠ 0 then
      let r := setHoveredNode g st (i : ℤ)
      ⟨r.1, r.2, some CursorStyle.pointer, some (TooltipAction.showTip (i : ℤ))⟩
    else
      let r := setHoveredNode g st (-1)
      ⟨r.1, r.2, some CursorStyle.defaultStyle, some TooltipAction.hideTip⟩
  | none =>
    let r := setHoveredNode g st (-1)
    ⟨r.1, r.2, some CursorStyle.defaultStyle, some TooltipAction.hideTip⟩

/-- `ReglGraph.handleMouseMove(event)`: stores the relative mouse position,
and unless a drag is in progress runs the raycast branch. -/
noncomputable def handleMouseMove (e : Env) (st : IState) (eventPos : ℚ × ℚ) : MoveOut :=
  let st0 := { st with mousePosition := eventPos }
  if st0.mouseDown then ⟨st0, [], none, none⟩
  else mouseMoveCore e.graph (raycast e st0.mousePosition) st0

/-- Result of a `click`: the new state and the events raised. -/
structure ClickOut where
  st : IState
  events : List Event
deriving DecidableEq, Repr

/-- The body of `handleClick` after `raycast` returned `closestPoint`:
`this.highlight()` first (clearing any highlight), then `if (closestPoint)`
— JS truthiness again — selects or clears, then raises `click`. -/
def clickCore (g : Graph) (closestPoint : Option ℕ) (st : IState) : ClickOut :=
  let r1 := highlight g st none
  match closestPoint with
  | some i =>
    if i ≠ 0 then
      let r2 := setSelectedNode g r1.1 (i : ℤ)
      ⟨r2.1, r1.2 ++ r2.2 ++ [Event.clickEv (some (i : ℤ))]⟩
    else
      let r2 := setSelectedNode g r1.1 (-1)
      ⟨r2.1, r1.2 ++ r2.2 ++ [Event.clickEv none]⟩
  | none =>
    let r2 := setSelectedNode g r1.1 (-1)
    ⟨r2.1, r1.2 ++ r2.2 ++ [Event.clickEv none]⟩

/-- `ReglGraph.handleClick(event)` (raycast reads `state.mousePosition`). -/
noncomputable def handleClick (e : Env) (st : IState) : ClickOut :=
  clickCore e.graph (raycast e st.mousePosition) st

/-! ## Raycast lemmas -/

theorem raycast_def (e : Env) (mouse : ℚ × ℚ) :
    raycast e mouse =
      ((rangeQueryAux
          (((cursorWorldPos e mouse).1 : ℝ) - scaledPointSize e / (e.width : ℝ))
          (((cursorWorldPos e mouse).2 : ℝ) - scaledPointSize e / (e.height : ℝ))
          (((cursorWorldPos e mouse).1 : ℝ) + scaledPointSize e / (e.width : ℝ))
          (((cursorWorldPos e mouse).2 : ℝ) + scaledPointSize e / (e.height : ℝ))
          e.points 0).foldl (raycastStep (cursorWorldPos e mouse))
          (scaledPointSize e, none)).2 := rfl

theorem scaledPointSize_eq (e : Env) : scaledPointSize e = 5000 * (e.dpr : ℝ) := by
  show 5 * 1000 * ((if (1 : ℝ) < 1 then (1 : ℝ) else 1) +
      Real.logb 2 (if (1 : ℝ) > 1 then (1 : ℝ) else 1)) * (e.dpr : ℝ) = 5000 * (e.dpr : ℝ)
  rw [if_neg (lt_irrefl (1 : ℝ)), Real.logb_one]
  ring

theorem raycastStep_eq (w : ℚ × ℚ) (acc : ℝ × Option ℕ) (ip : ℕ × (ℚ × ℚ)) :
    raycastStep w acc ip =
      if distance ip.2.1 ip.2.2 w.1 w.2 < acc.1
      then (distance ip.2.1 ip.2.2 w.1 w.2, some ip.1) else acc := rfl

theorem distance_nonneg (x1 y1 x2 y2 : ℚ) : 0 ≤ distance x1 y1 x2 y2 :=
  Real.sqrt_nonneg _

theorem distance_self (x y : ℚ) : distance x y x y = 0 := by
  simp [distance]

theorem distance_eq_zero_iff (x1 y1 x2 y2 : ℚ) :
    distance x1 y1 x2 y2 = 0 ↔ x1 = x2 ∧ y1 = y2 := by
  constructor
  · intro h
    unfold distance at h
    rw [show ((x1 - x2 : ℚ) : ℝ) ^ 2 + ((y1 - y2 : ℚ) : ℝ) ^ 2 =
        ((x1 - x2 : ℚ) : ℝ) * ((x1 - x2 : ℚ) : ℝ) + ((y1 - y2 : ℚ) : ℝ) * ((y1 - y2 : ℚ) : ℝ)
        from by ring] at h
    have h0 := Real.sqrt_eq_zero'.mp h
    have hx : ((x1 - x2 : ℚ) : ℝ) * ((x1 - x2 : ℚ) : ℝ) = 0 := by
      nlinarith [mul_self_nonneg ((x1 - x2 : ℚ) : ℝ), mul_self_nonneg ((y1 - y2 : ℚ) : ℝ)]
    have hy : ((y1 - y2 : ℚ) : ℝ) * ((y1 - y2 : ℚ) : ℝ) = 0 := by
      nlinarith [mul_self_nonneg ((x1 - x2 : ℚ) : ℝ), mul_self_nonneg ((y1 - y2 : ℚ) : ℝ)]
    have hx2 : (x1 - x2 : ℚ) = 0 := by
      have := mul_self_eq_zero.mp hx
      exact_mod_cast this
    have hy2 : (y1 - y2 : ℚ) = 0 := by
      have := mul_self_eq_zero.mp hy
      exact_mod_cast this
    constructor
    · linarith
    · linarith
  · rintro ⟨rfl, rfl⟩
    exact distance_self _ _

theorem mem_rangeQueryAux {minX minY maxX maxY : ℝ} :
    ∀ (l : List (ℚ × ℚ)) (i : ℕ) (jp : ℕ × (ℚ × ℚ)),
      jp ∈ rangeQueryAux minX minY maxX maxY l i →
      ∃ k, jp.1 = i + k ∧ l.get? k = some jp.2 ∧
        minX ≤ (jp.2.1 : ℝ) ∧ (jp.2.1 : ℝ) ≤ maxX ∧ minY ≤ (jp.2.2 : ℝ) ∧ (jp.2.2 : ℝ) ≤ maxY
  | [], i, jp => by simp [rangeQueryAux]
  | p :: rest, i, jp => by
    intro hmem
    unfold rangeQueryAux at hmem
    by_cases hb : minX ≤ (p.1 : ℝ) ∧ (p.1 : ℝ) ≤ maxX ∧ minY ≤ (p.2 : ℝ) ∧ (p.2 : ℝ) ≤ maxY
    · rw [if_pos hb] at hmem
      rcases List.mem_cons.mp hmem with h | h
      · subst h
        exact ⟨0, by simp, by simp, hb.1, hb.2.1, hb.2.2.1, hb.2.2.2⟩
      · obtain ⟨k, hk, hget, hbs⟩ := mem_rangeQueryAux rest (i + 1) jp h
        exact ⟨k + 1, by omega, by simpa using hget, hbs.1, hbs.2.1, hbs.2.2.1, hbs.2.2.2⟩
    · rw [if_neg hb] at hmem
      obtain ⟨k, hk, hget, hbs⟩ := mem_rangeQueryAux rest (i + 1) jp hmem
      exact ⟨k + 1, by omega, by simpa using hget, hbs.1, hbs.2.1, hbs.2.2.1, hbs.2.2.2⟩

theorem rangeQueryAux_mem {minX minY maxX maxY : ℝ} :
    ∀ (l : List (ℚ × ℚ)) (i k : ℕ) (p : ℚ × ℚ),
      l.get? k = some p →
      minX ≤ (p.1 : ℝ) → (p.1 : ℝ) ≤ maxX → minY ≤ (p.2 : ℝ) → (p.2 : ℝ) ≤ maxY →
      (i + k, p) ∈ rangeQueryAux minX minY maxX maxY l i
  | [], i, k, p => by simp
  | q :: rest, i, 0, p => by
    intro hget h1 h2 h3 h4
    simp only [List.get?] at hget
    cases hget
    unfold rangeQueryAux
    rw [if_pos ⟨h1, h2, h3, h4⟩]
    simp
  | q :: rest, i, k + 1, p => by
    intro hget h1 h2 h3 h4
    simp only [List.get?] at hget
    have ih := rangeQueryAux_mem rest (i + 1) k p hget h1 h2 h3 h4
    have harith : i + (k + 1) = (i + 1) + k := by omega
    unfold rangeQueryAux
    by_cases hb : minX ≤ (q.1 : ℝ) ∧ (q.1 : ℝ) ≤ maxX ∧ minY ≤ (q.2 : ℝ) ∧ (q.2 : ℝ) ≤ maxY
    · rw [if_pos hb]
      rw [harith]
      exact List.mem_cons_of_mem _ ih
    · rw [if_neg hb]
      rw [harith]
      exact ih

theorem foldl_raycastStep_closest (w : ℚ × ℚ) (init : ℝ) (P : ℕ → ℚ × ℚ → Prop) :
    ∀ (l : List (ℕ × (ℚ × ℚ))) (acc : ℝ × Option ℕ),
      (∀ ip ∈ l, P ip.1 ip.2) →
      acc.1 ≤ init →
      (∀ i, acc.2 = some i →
        ∃ p, P i p ∧ distance p.1 p.2 w.1 w.2 = acc.1 ∧ acc.1 < init) →
      (l.foldl (raycastStep w) acc).1 ≤ init ∧
      (∀ i, (l.foldl (raycastStep w) acc).2 = some i →
        ∃ p, P i p ∧ distance p.1 p.2 w.1 w.2 = (l.foldl (raycastStep w) acc).1 ∧
          (l.foldl (raycastStep w) acc).1 < init)
  | [], acc => by
    intro _ hle hinv
    exact ⟨hle, by simpa using hinv⟩
  | ip :: rest, acc => by
    intro hl hle hinv
    have hP : P ip.1 ip.2 := hl ip (List.mem_cons_self _ _)
    have hl2 : ∀ jp ∈ rest, P jp.1 jp.2 := fun jp hjp => hl jp (List.mem_cons_of_mem _ hjp)
    simp only [List.foldl_cons]
    unfold raycastStep
    by_cases hd : distance ip.2.1 ip.2.2 w.1 w.2 < acc.1
    · rw [if_pos hd]
      exact foldl_raycastStep_closest w init P rest _ hl2 (le_of_lt (lt_of_lt_of_le hd hle))
        (by
          intro i hi
          simp only at hi
          cases hi
          exact ⟨ip.2, hP, rfl, lt_of_lt_of_le hd hle⟩)
    · rw [if_neg hd]
      exact foldl_raycastStep_closest w init P rest acc hl2 hle hinv

theorem foldl_raycastStep_zero_fixed (w : ℚ × ℚ) :
    ∀ (l : List (ℕ × (ℚ × ℚ))) (i : ℕ),
      l.foldl (raycastStep w) (0, some i) = (0, some i)
  | [], i => rfl
  | ip :: rest, i => by
    simp only [List.foldl_cons]
    unfold raycastStep
    rw [if_neg (not_lt.mpr (distance_nonneg _ _ _ _))]
    exact foldl_raycastStep_zero_fixed w rest i

theorem foldl_raycastStep_exact (w : ℚ × ℚ) :
    ∀ (l : List (ℕ × (ℚ × ℚ))) (acc : ℝ × Option ℕ),
      0 < acc.1 →
      (∃ ip ∈ l, distance ip.2.1 ip.2.2 w.1 w.2 = 0) →
      ∃ ip, ip ∈ l ∧ (l.foldl (raycastStep w) acc).2 = some ip.1 ∧
        distance ip.2.1 ip.2.2 w.1 w.2 = 0
  | [], acc => by simp
  | ip0 :: rest, acc => by
    intro hpos hex
    rw [List.foldl_cons, raycastStep_eq]
    by_cases h0 : distance ip0.2.1 ip0.2.2 w.1 w.2 = 0
    · rw [if_pos (by rw [h0]; exact hpos), h0,
        foldl_raycastStep_zero_fixed w rest ip0.1]
      exact ⟨ip0, List.mem_cons_self _ _, rfl, h0⟩
    · obtain ⟨jp, hjp, hjd⟩ := hex
      rcases List.mem_cons.mp hjp with h | h
      · exact absurd (h ▸ hjd) h0
      · by_cases hd : distance ip0.2.1 ip0.2.2 w.1 w.2 < acc.1
        · rw [if_pos hd]
          obtain ⟨kp, hkp, hres, hkd⟩ := foldl_raycastStep_exact w rest
            (distance ip0.2.1 ip0.2.2 w.1 w.2, some ip0.1)
            (by
              rcases lt_or_eq_of_le (distance_nonneg ip0.2.1 ip0.2.2 w.1 w.2) with hlt | heq
              · exact hlt
              · exact absurd heq.symm h0)
            ⟨jp, h, hjd⟩
          exact ⟨kp, List.mem_cons_of_mem _ hkp, hres, hkd⟩
        · rw [if_neg hd]
          obtain ⟨kp, hkp, hres, hkd⟩ := foldl_raycastStep_exact w rest acc hpos ⟨jp, h, hjd⟩
          exact ⟨kp, List.mem_cons_of_mem _ hkp, hres, hkd⟩

theorem raycast_mem_radius (e : Env) (mouse : ℚ × ℚ) :
    ∀ i, raycast e mouse = some i →
      ∃ p, e.points.get? i = some p ∧
        distance p.1 p.2 (cursorWorldPos e mouse).1 (cursorWorldPos e mouse).2 <
          scaledPointSize e := by
  intro i hi
  rw [raycast_def] at hi
  obtain ⟨hle, hinv⟩ := foldl_raycastStep_closest (cursorWorldPos e mouse) (scaledPointSize e)
    (fun j p => e.points.get? j = some p)
    (rangeQueryAux
      (((cursorWorldPos e mouse).1 : ℝ) - scaledPointSize e / (e.width : ℝ))
      (((cursorWorldPos e mouse).2 : ℝ) - scaledPointSize e / (e.height : ℝ))
      (((cursorWorldPos e mouse).1 : ℝ) + scaledPointSize e / (e.width : ℝ))
      (((cursorWorldPos e mouse).2 : ℝ) + scaledPointSize e / (e.height : ℝ))
      e.points 0)
    (scaledPointSize e, none)
    (by
      intro ip hip
      obtain ⟨k, hk, hget, _⟩ := mem_rangeQueryAux _ _ _ hip
      have hk0 : ip.1 = k := by omega
      rw [hk0]
      exact hget)
    le_rfl
    (by intro j hj; cases hj)
  obtain ⟨p, hP, hdist, hlt⟩ := hinv i hi
  exact ⟨p, hP, by rw [hdist]; exact hlt⟩

theorem raycast_exact_hit (e : Env) (mouse : ℚ × ℚ)
    (hdpr : 0 < e.dpr) (hw : 0 < e.width) (hh : 0 < e.height) :
    ∀ j, e.points.get? j = some (cursorWorldPos e mouse) →
      ∃ k p, raycast e mouse = some k ∧ e.points.get? k = some p ∧
        p = cursorWorldPos e mouse := by
  intro j hj
  have hspspos : 0 < scaledPointSize e := by
    rw [scaledPointSize_eq]
    have : (0 : ℝ) < (e.dpr : ℝ) := by exact_mod_cast hdpr
    nlinarith
  have hwR : (0 : ℝ) < (e.width : ℝ) := by exact_mod_cast hw
  have hhR : (0 : ℝ) < (e.height : ℝ) := by exact_mod_cast hh
  have hxN : 0 < scaledPointSize e / (e.width : ℝ) := div_pos hspspos hwR
  have hyN : 0 < scaledPointSize e / (e.height : ℝ) := div_pos hspspos hhR
  have hmem := @rangeQueryAux_mem
    (((cursorWorldPos e mouse).1 : ℝ) - scaledPointSize e / (e.width : ℝ))
    (((cursorWorldPos e mouse).2 : ℝ) - scaledPointSize e / (e.height : ℝ))
    (((cursorWorldPos e mouse).1 : ℝ) + scaledPointSize e / (e.width : ℝ))
    (((cursorWorldPos e mouse).2 : ℝ) + scaledPointSize e / (e.height : ℝ))
    e.points 0 j (cursorWorldPos e mouse) hj
    (by linarith) (by linarith) (by linarith) (by linarith)
  obtain ⟨ip, hipmem, hres, hipd⟩ := foldl_raycastStep_exact (cursorWorldPos e mouse) _
    (scaledPointSize e, none) hspspos
    ⟨(0 + j, cursorWorldPos e mouse), hmem, by
      simpa using distance_self (cursorWorldPos e mouse).1 (cursorWorldPos e mouse).2⟩
  obtain ⟨k, hk, hget, _⟩ := mem_rangeQueryAux _ _ _ hipmem
  obtain ⟨h1, h2⟩ := (distance_eq_zero_iff _ _ _ _).mp hipd
  refine ⟨ip.1, ip.2, ?_, ?_, ?_⟩
  · rw [raycast_def]
    exact hres
  · have hk0 : ip.1 = k := by omega
    rw [hk0]
    exact hget
  · exact Prod.ext h1 h2

/-- C1: for every loaded dataset, cursor position and transform state,
`raycast` never returns a node whose Euclidean distance from the cursor's
world position exceeds the search radius (`scaledPointSize`), and whenever
the range-query candidate set contains a node at the cursor's exact world
position, `raycast` returns a node at that exact position. -/
theorem claimC1_raycast_radius_and_exact_hit (e : Env) (mouse : ℚ × ℚ)
    (hdpr : 0 < e.dpr) (hw : 0 < e.width) (hh : 0 < e.height) :
    (∀ i, raycast e mouse = some i →
      ∃ p, e.points.get? i = some p ∧
        distance p.1 p.2 (cursorWorldPos e mouse).1 (cursorWorldPos e mouse).2 ≤
          scaledPointSize e)
    ∧ (∀ j, e.points.get? j = some (cursorWorldPos e mouse) →
        ∃ k p, raycast e mouse = some k ∧ e.points.get? k = some p ∧
          p = cursorWorldPos e mouse) := by
  constructor
  · intro i hi
    obtain ⟨p, hget, hlt⟩ := raycast_mem_radius e mouse i hi
    exact ⟨p, hget, le_of_lt hlt⟩
  · exact raycast_exact_hit e mouse hdpr hw hh

/-- A tiny concrete engine environment: a 2×2 canvas, identity model matrix
and the single node at world position `(1, 1)`, which is exactly the world
position of the cursor at relative mouse position `(1, 1)`. -/
def envC1 : Env :=
  { width := 2, height := 2, dpr := 1
    projection := mat3Projection 2 2, transform := mat3Identity
    points := [(1, 1)], graph := ⟨1, []⟩ }

theorem cursorWorldPos_envC1 : cursorWorldPos envC1 (1, 1) = (1, 1) := by
  norm_num [cursorWorldPos, envC1, getMouseGlPos, getNdcX, getNdcY, getScatterGlPos,
    mat3Projection, mat3Identity, mat3Multiply, mat3Invert, vec3TransformMat3]

theorem claimC1_witness :
    (0 : ℚ) < 1 ∧
      (∃ k p, raycast envC1 (1, 1) = some k ∧ envC1.points.get? k = some p ∧
        p = cursorWorldPos envC1 (1, 1)) :=
  ⟨by norm_num,
    (claimC1_raycast_radius_and_exact_hit envC1 (1, 1) (by norm_num [envC1])
      (by norm_num [envC1]) (by norm_num [envC1])).2 0
      (by rw [cursorWorldPos_envC1]; rfl)⟩

/-! ## C2 : a pick that resolves to render index 0 is treated as a miss -/

theorem getNodeNeighbors_neg_one (g : Graph) : getNodeNeighbors g (-1) = [] := by
  simp [getNodeNeighbors]

theorem setHoveredNode_clear (g : Graph) (st : IState) :
    (setHoveredNode g st (-1)).1.hoveredNode = -1 ∧
    (setHoveredNode g st (-1)).1.hoverNeighbors = [] ∧
    ∀ i, Event.nodeover i ∉ (setHoveredNode g st (-1)).2 := by
  unfold setHoveredNode
  by_cases h : st.hoveredNode ≠ -1
  · rw [if_pos h]
    refine ⟨by simp [setHoverNeighbors], by simp [setHoverNeighbors, getNodeNeighbors_neg_one], ?_⟩
    intro i
    simp [hoveredNodeWatcher, h]
  · rw [if_neg h]
    push_neg at h
    exact ⟨h, by simp [setHoverNeighbors], by simp⟩

theorem setSelectedNode_clear (g : Graph) (st : IState) :
    (setSelectedNode g st (-1)).1.selectedNode = -1 ∧
    (setSelectedNode g st (-1)).1.highlightedNodes = st.highlightedNodes ∧
    (setSelectedNode g st (-1)).2 = [] := by
  unfold setSelectedNode
  by_cases h : st.selectedNode ≠ -1
  · rw [if_pos h]
    simp [setSelectedNeighbors]
  · rw [if_neg h]
    push_neg at h
    exact ⟨h, rfl, rfl⟩

theorem mouseMoveCore_some_zero (g : Graph) (st : IState) :
    (mouseMoveCore g (some 0) st).st.hoveredNode = -1 ∧
    (mouseMoveCore g (some 0) st).st.hoverNeighbors = [] ∧
    (mouseMoveCore g (some 0) st).tooltip = some TooltipAction.hideTip ∧
    (mouseMoveCore g (some 0) st).cursor = some CursorStyle.defaultStyle ∧
    ∀ i, Event.nodeover i ∉ (mouseMoveCore g (some 0) st).events := by
  have h := setHoveredNode_clear g st
  have hred : mouseMoveCore g (some 0) st =
      ⟨(setHoveredNode g st (-1)).1, (setHoveredNode g st (-1)).2,
        some CursorStyle.defaultStyle, some TooltipAction.hideTip⟩ := rfl
  rw [hred]
  exact ⟨h.1, h.2.1, rfl, rfl, h.2.2⟩

theorem clickCore_some_zero (g : Graph) (st : IState) :
    (clickCore g (some 0) st).st.selectedNode = -1 ∧
    (clickCore g (some 0) st).st.highlightedNodes = [] ∧
    (∀ i, Event.nodeselect i ∉ (clickCore g (some 0) st).events) ∧
    Event.clickEv none ∈ (clickCore g (some 0) st).events := by
  have h := setSelectedNode_clear g { st with highlightedNodes := ([] : List ℕ) }
  have hred : clickCore g (some 0) st =
      ⟨(setSelectedNode g { st with highlightedNodes := ([] : List ℕ) } (-1)).1,
        ([] : List Event) ++
          (setSelectedNode g { st with highlightedNodes := ([] : List ℕ) } (-1)).2 ++
          [Event.clickEv none]⟩ := rfl
  rw [hred]
  refine ⟨h.1, ?_, ?_, ?_⟩
  · rw [show (⟨(setSelectedNode g { st with highlightedNodes := ([] : List ℕ) } (-1)).1,
      ([] : List Event) ++
        (setSelectedNode g { st with highlightedNodes := ([] : List ℕ) } (-1)).2 ++
        [Event.clickEv none]⟩ : ClickOut).st =
      (setSelectedNode g { st with highlightedNodes := ([] : List ℕ) } (-1)).1 from rfl,
      h.2.1]
  · intro i
    simp [h.2.2]
  · simp [h.2.2]

/-- C2: when `raycast` resolves the cursor to the node with render index 0,
both handlers treat the pick as a miss because `raycast` returns the bare
index and `if (closestPoint)` tests its JS truthiness — `0` is falsy.  The
hover is cleared, the tooltip hides, the selection is cleared and no
`nodeover` or `nodeselect` event fires. -/
theorem claimC2_index_zero_pick_is_miss (e : Env) (st : IState)
    (hray : raycast e st.mousePosition = some 0) (hdown : st.mouseDown = false) :
    ((handleMouseMove e st st.mousePosition).st.hoveredNode = -1 ∧
     (handleMouseMove e st st.mousePosition).st.hoverNeighbors = [] ∧
     (handleMouseMove e st st.mousePosition).tooltip = some TooltipAction.hideTip ∧
     (∀ i, Event.nodeover i ∉ (handleMouseMove e st st.mousePosition).events))
    ∧ ((handleClick e st).st.selectedNode = -1 ∧
       (handleClick e st).st.highlightedNodes = [] ∧
       (∀ i, Event.nodeselect i ∉ (handleClick e st).events) ∧
       Event.clickEv none ∈ (handleClick e st).events) := by
  constructor
  · have heq : handleMouseMove e st st.mousePosition =
        mouseMoveCore e.graph (some 0) { st with mousePosition := st.mousePosition } := by
      unfold handleMouseMove
      simp only [hdown, Bool.false_eq_true, if_false]
      rw [show ({ st with mousePosition := st.mousePosition } : IState).mousePosition =
        st.mousePosition from rfl, hray]
    rw [heq]
    obtain ⟨h1, h2, h3, _, h5⟩ := mouseMoveCore_some_zero e.graph
      { st with mousePosition := st.mousePosition }
    exact ⟨h1, h2, h3, h5⟩
  · have heq : handleClick e st = clickCore e.graph (some 0) st := by
      unfold handleClick
      rw [hray]
    rw [heq]
    exact clickCore_some_zero e.graph st

theorem raycast_envC1 : raycast envC1 (1, 1) = some 0 := by
  obtain ⟨k, p, hr, hg, _⟩ := raycast_exact_hit envC1 (1, 1) (by norm_num [envC1])
    (by norm_num [envC1]) (by norm_num [envC1]) 0 (by rw [cursorWorldPos_envC1]; rfl)
  cases k with
  | zero => exact hr
  | succ n => simp [envC1] at hg

/-- A concrete interaction state over `envC1` with the cursor at `(1, 1)`,
directly above the node with render index 0. -/
def stC2 : IState :=
  { mousePosition := (1, 1), mouseDown := false, hoveredNode := 3, hoverNeighbors := [1]
    selectedNode := 2, selectedNeighbors := [], highlightedNodes := [5] }

theorem claimC2_witness :
    ((handleMouseMove envC1 stC2 stC2.mousePosition).st.hoveredNode = -1 ∧
     (handleMouseMove envC1 stC2 stC2.mousePosition).st.hoverNeighbors = [] ∧
     (handleMouseMove envC1 stC2 stC2.mousePosition).tooltip = some TooltipAction.hideTip ∧
     (∀ i, Event.nodeover i ∉ (handleMouseMove envC1 stC2 stC2.mousePosition).events))
    ∧ ((handleClick envC1 stC2).st.selectedNode = -1 ∧
       (handleClick envC1 stC2).st.highlightedNodes = [] ∧
       (∀ i, Event.nodeselect i ∉ (handleClick envC1 stC2).events) ∧
       Event.clickEv none ∈ (handleClick envC1 stC2).events) :=
  claimC2_index_zero_pick_is_miss envC1 stC2 raycast_envC1 rfl

/-! ## C3 : the search radius does not depend on zoom -/

/-- Modelled from the spec: the pick-radius formula stated in §4.3 step 1,
`radius = base * (min(1, zoom) + log2(max(1, zoom))) * dpr`, with `zoom`
read from the model matrix's scale component. -/
noncomputable def specSearchRadius (base zoom dpr : ℝ) : ℝ :=
  base * (min 1 zoom + Real.logb 2 (max 1 zoom)) * dpr

/-- `envC1` with the pan/zoom transform at zoom level 1. -/
def envZoom1 : Env :=
  { width := 2, height := 2, dpr := 1
    projection := mat3Projection 2 2, transform := updateTransform 0 0 1
    points := [(1, 1)], graph := ⟨1, []⟩ }

/-- The same interaction state, differing only in the zoom level (scale 4). -/
def envZoom4 : Env := { envZoom1 with transform := updateTransform 0 0 4 }

theorem logb_two_four : Real.logb 2 4 = 2 := by
  rw [show (4 : ℝ) = 2 ^ (2 : ℕ) by norm_num, Real.logb_pow,
    Real.logb_self_eq_one (by norm_num)]
  norm_num

/-- C3 counterexample: two interaction states that differ only in the zoom
level (model-matrix scale component 1 versus 4) produce the *same* search
radius in `raycast`, while the spec formula gives different radii (5000
versus 15000 at dpr 1): the code evaluates the formula at the constant
`scaling = 1`, never at the zoom level. -/
theorem claimC3_counterexample :
    envZoom4 = { envZoom1 with transform := updateTransform 0 0 4 } ∧
    envZoom1.transform.m0 = 1 ∧ envZoom4.transform.m0 = 4 ∧
    scaledPointSize envZoom4 = scaledPointSize envZoom1 ∧
    specSearchRadius 5000 ((envZoom4.transform.m0 : ℚ) : ℝ) 1 ≠
      specSearchRadius 5000 ((envZoom1.transform.m0 : ℚ) : ℝ) 1 := by
  refine ⟨rfl, rfl, rfl, ?_, ?_⟩
  · rw [scaledPointSize_eq, scaledPointSize_eq]
    rfl
  · rw [show (envZoom1.transform.m0 : ℚ) = (1 : ℚ) from rfl,
      show (envZoom4.transform.m0 : ℚ) = (4 : ℚ) from rfl]
    unfold specSearchRadius
    rw [show ((4 : ℚ) : ℝ) = (4 : ℝ) by norm_num, show ((1 : ℚ) : ℝ) = (1 : ℝ) by norm_num]
    rw [min_eq_left (by norm_num : (1 : ℝ) ≤ 4), max_eq_right (by norm_num : (1 : ℝ) ≤ 4),
      min_self, max_self, Real.logb_one, logb_two_four]
    norm_num

/-- C3 (amended): the search radius used by `raycast` is independent of
zoom.  The code evaluates the radius formula at the constant `scaling = 1`
(with `pointSize = 1000`), giving `5 * 1000 * (min(1,1) + log2(max(1,1))) * dpr
= 5000 * dpr` for every transform state, so any two states sharing a
device pixel ratio share the search radius. -/
theorem claimC3_amended_radius_zoom_independent (e1 e2 : Env) (h : e1.dpr = e2.dpr) :
    scaledPointSize e1 = scaledPointSize e2 ∧
    scaledPointSize e1 = 5000 * (e1.dpr : ℝ) := by
  constructor
  · rw [scaledPointSize_eq, scaledPointSize_eq, h]
  · exact scaledPointSize_eq e1

theorem claimC3_witness :
    envZoom1.dpr = envZoom4.dpr ∧ scaledPointSize envZoom1 = scaledPointSize envZoom4 :=
  ⟨rfl, (claimC3_amended_radius_zoom_independent envZoom1 envZoom4 rfl).1⟩

/-! ## C4 : neighbour-set recomputation order and staleness -/

/-- Two nodes, node 0 at `(0, 0)` and node 1 at `(1, 1)` (the cursor's world
position), linked by one edge. -/
def envC4 : Env :=
  { width := 2, height := 2, dpr := 1
    projection := mat3Projection 2 2, transform := mat3Identity
    points := [(0, 0), (1, 1)], graph := ⟨2, [(0, 1)]⟩ }

theorem cursorWorldPos_envC4 : cursorWorldPos envC4 (1, 1) = (1, 1) := by
  norm_num [cursorWorldPos, envC4, getMouseGlPos, getNdcX, getNdcY, getScatterGlPos,
    mat3Projection, mat3Identity, mat3Multiply, mat3Invert, vec3TransformMat3]

theorem raycast_envC4 : raycast envC4 (1, 1) = some 1 := by
  obtain ⟨k, p, hr, hg, hp⟩ := raycast_exact_hit envC4 (1, 1) (by norm_num [envC4])
    (by norm_num [envC4]) (by norm_num [envC4]) 1 (by rw [cursorWorldPos_envC4]; rfl)
  rw [cursorWorldPos_envC4] at hp
  cases k with
  | zero =>
    have hg2 : p = ((0 : ℚ), (0 : ℚ)) := by
      have : envC4.points.get? 0 = some ((0 : ℚ), (0 : ℚ)) := rfl
      rw [this] at hg
      exact (Option.some_injective _ hg).symm
    rw [hg2] at hp
    exact absurd hp (by norm_num)
  | succ n =>
    cases n with
    | zero => exact hr
    | succ m => simp [envC4] at hg

/-- The pristine initial interaction state with the cursor at `(1, 1)`. -/
def stC4 : IState :=
  { mousePosition := (1, 1), mouseDown := false, hoveredNode := -1, hoverNeighbors := []
    selectedNode := -1, selectedNeighbors := [], highlightedNodes := [] }

def stC4after : IState :=
  { mousePosition := (1, 1), mouseDown := false, hoveredNode := 1,
    hoverNeighbors := [0], selectedNode := -1, selectedNeighbors := [],
    highlightedNodes := [] }

/-- C4 counterexample: starting from the pristine state over `envC4`, two
consecutive pointer moves with the cursor over node 1 (node 1's neighbour
set is `[0]`) leave `hoveredNode = 1` with an *empty* stored neighbour
set: the second move hits `setHoveredNode`'s unchanged-index branch, which
calls `setHoverNeighbors()` with no argument and clears the set, so the
stored neighbour set is stale with respect to the stored hover index. -/
theorem claimC4_counterexample :
    (handleMouseMove envC4 ((handleMouseMove envC4 stC4 (1, 1)).st) (1, 1)).st.hoveredNode = 1 ∧
    (handleMouseMove envC4 ((handleMouseMove envC4 stC4 (1, 1)).st) (1, 1)).st.hoverNeighbors
      = [] ∧
    getNodeNeighbors envC4.graph 1 = [0] := by
  have hred1 : handleMouseMove envC4 stC4 (1, 1) =
      mouseMoveCore envC4.graph (raycast envC4 (1, 1))
        { stC4 with mousePosition := (1, 1) } := rfl
  have hstep1 : (handleMouseMove envC4 stC4 (1, 1)).st = stC4after := by
    rw [hred1, raycast_envC4]
    norm_num [mouseMoveCore, setHoveredNode, setHoverNeighbors, hoveredNodeWatcher,
      getNodeNeighbors, stC4, stC4after, envC4]
  have hred2 : handleMouseMove envC4 stC4after (1, 1) =
      mouseMoveCore envC4.graph (raycast envC4 (1, 1))
        { stC4after with mousePosition := (1, 1) } := rfl
  rw [hstep1, hred2, raycast_envC4]
  refine ⟨?_, ?_, ?_⟩
  · norm_num [mouseMoveCore, setHoveredNode, setHoverNeighbors, stC4after]
  · norm_num [mouseMoveCore, setHoveredNode, setHoverNeighbors, stC4after]
  · norm_num [getNodeNeighbors, envC4]

/-- C4 (amended): each operation recomputes the neighbour set *within* the
same call, immediately *after* (not before) the owning index is written,
so after any `setSelectedNode` call and after any `setHoveredNode` call
with a changed index the stored neighbour set is exactly that of the
stored index; however, calling `setHoveredNode` with the currently hovered
index keeps the index and *clears* the neighbour set, leaving it stale. -/
theorem claimC4_amended_neighbor_recompute (g : Graph) (st : IState) (idx : ℤ) :
    (st.selectedNode ≠ idx →
      (setSelectedNode g st idx).1.selectedNode = idx ∧
      (setSelectedNode g st idx).1.selectedNeighbors = getNodeNeighbors g idx) ∧
    (st.selectedNode = idx → (setSelectedNode g st idx).1 = st) ∧
    (st.hoveredNode ≠ idx →
      (setHoveredNode g st idx).1.hoveredNode = idx ∧
      (setHoveredNode g st idx).1.hoverNeighbors = getNodeNeighbors g idx) ∧
    (st.hoveredNode = idx →
      (setHoveredNode g st idx).1.hoveredNode = idx ∧
      (setHoveredNode g st idx).1.hoverNeighbors = []) := by
  refine ⟨?_, ?_, ?_, ?_⟩
  · intro h
    unfold setSelectedNode
    rw [if_pos h]
    by_cases h2 : idx ≠ -1
    · rw [if_pos h2]
      exact ⟨rfl, rfl⟩
    · rw [if_neg h2]
      push_neg at h2
      subst h2
      exact ⟨rfl, by simp [setSelectedNeighbors, getNodeNeighbors_neg_one]⟩
  · intro h
    unfold setSelectedNode
    rw [if_neg (by simpa using h)]
  · intro h
    unfold setHoveredNode
    rw [if_pos h]
    exact ⟨rfl, rfl⟩
  · intro h
    unfold setHoveredNode
    rw [if_neg (by simpa using h)]
    exact ⟨h, rfl⟩

theorem claimC4_witness :
    ((setSelectedNode envC4.graph stC4 1).1.selectedNode = 1 ∧
     (setSelectedNode envC4.graph stC4 1).1.selectedNeighbors =
       getNodeNeighbors envC4.graph 1) ∧
    ((setHoveredNode envC4.graph { stC4 with hoveredNode := 1 } 1).1.hoveredNode = 1 ∧
     (setHoveredNode envC4.graph { stC4 with hoveredNode := 1 } 1).1.hoverNeighbors = []) :=
  ⟨(claimC4_amended_neighbor_recompute envC4.graph stC4 1).1 (by decide),
   (claimC4_amended_neighbor_recompute envC4.graph { stC4 with hoveredNode := 1 } 1).2.2.2
     rfl⟩

/-! ## C5 : selection and highlight are mutually exclusive -/

theorem setSelectedNode_highlighted (g : Graph) (st : IState) (idx : ℤ) :
    (setSelectedNode g st idx).1.highlightedNodes = st.highlightedNodes := by
  unfold setSelectedNode
  split
  · split
    · simp [setSelectedNeighbors]
    · simp [setSelectedNeighbors]
  · rfl

theorem setHoveredNode_preserves (g : Graph) (st : IState) (idx : ℤ) :
    (setHoveredNode g st idx).1.selectedNode = st.selectedNode ∧
    (setHoveredNode g st idx).1.highlightedNodes = st.highlightedNodes := by
  unfold setHoveredNode
  split
  · constructor <;> simp [setHoverNeighbors]
  · constructor <;> simp [setHoverNeighbors]

theorem clickCore_highlighted_empty (g : Graph) (cp : Option ℕ) (st : IState) :
    (clickCore g cp st).st.highlightedNodes = [] := by
  cases cp with
  | none =>
    show (setSelectedNode g { st with highlightedNodes := ([] : List ℕ) } (-1)).1.highlightedNodes
      = []
    rw [setSelectedNode_highlighted]
  | some i =>
    have hred : clickCore g (some i) st =
        if i ≠ 0 then
          ⟨(setSelectedNode g { st with highlightedNodes := ([] : List ℕ) } (i : ℤ)).1,
            ([] : List Event) ++
              (setSelectedNode g { st with highlightedNodes := ([] : List ℕ) } (i : ℤ)).2 ++
              [Event.clickEv (some (i : ℤ))]⟩
        else
          ⟨(setSelectedNode g { st with highlightedNodes := ([] : List ℕ) } (-1)).1,
            ([] : List Event) ++
              (setSelectedNode g { st with highlightedNodes := ([] : List ℕ) } (-1)).2 ++
              [Event.clickEv none]⟩ := rfl
    by_cases h : i ≠ 0
    · rw [hred, if_pos h]
      show (setSelectedNode g { st with highlightedNodes := ([] : List ℕ) }
        (i : ℤ)).1.highlightedNodes = []
      rw [setSelectedNode_highlighted]
    · rw [hred, if_neg h]
      show (setSelectedNode g { st with highlightedNodes := ([] : List ℕ) }
        (-1)).1.highlightedNodes = []
      rw [setSelectedNode_highlighted]

theorem mouseMoveCore_preserves (g : Graph) (cp : Option ℕ) (st : IState) :
    (mouseMoveCore g cp st).st.selectedNode = st.selectedNode ∧
    (mouseMoveCore g cp st).st.highlightedNodes = st.highlightedNodes := by
  cases cp with
  | none => exact setHoveredNode_preserves g st (-1)
  | some i =>
    have hred : mouseMoveCore g (some i) st =
        if i ≠ 0 then
          ⟨(setHoveredNode g st (i : ℤ)).1, (setHoveredNode g st (i : ℤ)).2,
            some CursorStyle.pointer, some (TooltipAction.showTip (i : ℤ))⟩
        else
          ⟨(setHoveredNode g st (-1)).1, (setHoveredNode g st (-1)).2,
            some CursorStyle.defaultStyle, some TooltipAction.hideTip⟩ := rfl
    by_cases h : i ≠ 0
    · rw [hred, if_pos h]
      exact setHoveredNode_preserves g st (i : ℤ)
    · rw [hred, if_neg h]
      exact setHoveredNode_preserves g st (-1)

theorem handleMouseMove_preserves (e : Env) (st : IState) (p : ℚ × ℚ) :
    (handleMouseMove e st p).st.selectedNode = st.selectedNode ∧
    (handleMouseMove e st p).st.highlightedNodes = st.highlightedNodes := by
  unfold handleMouseMove
  by_cases h : ({ st with mousePosition := p } : IState).mouseDown = true
  · rw [if_pos h]
    exact ⟨rfl, rfl⟩
  · rw [if_neg h]
    exact mouseMoveCore_preserves e.graph
      (raycast e ({ st with mousePosition := p } : IState).mousePosition)
      { st with mousePosition := p }

/-- C5: a non-null `highlight([ids])` call always clears any active
selection (it ends with `setSelectedNode()`), a click-driven selection
always clears the highlight set first (`handleClick` calls
`this.highlight()` before selecting), a null `highlight()` empties the
set, and pointer moves touch neither field — so after every modelled
operation an active selection and a non-empty highlight set never
coexist. -/
theorem claimC5_highlight_selection_exclusive (g : Graph) (st : IState) (ids : List ℕ)
    (e : Env) (st2 : IState) (p : ℚ × ℚ) :
    (highlight g st (some ids)).1.selectedNode = -1 ∧
    (highlight g st (some ids)).1.highlightedNodes = ids ∧
    (highlight g st none).1.highlightedNodes = [] ∧
    (handleClick e st2).st.highlightedNodes = [] ∧
    ((handleMouseMove e st2 p).st.selectedNode = st2.selectedNode ∧
     (handleMouseMove e st2 p).st.highlightedNodes = st2.highlightedNodes) := by
  refine ⟨?_, ?_, rfl, ?_, handleMouseMove_preserves e st2 p⟩
  · show (setSelectedNode g { st with highlightedNodes := ids } (-1)).1.selectedNode = -1
    exact (setSelectedNode_clear g _).1
  · show (setSelectedNode g { st with highlightedNodes := ids } (-1)).1.highlightedNodes = ids
    rw [setSelectedNode_highlighted]
  · show (clickCore e.graph (raycast e st2.mousePosition) st2).st.highlightedNodes = []
    exact clickCore_highlighted_empty e.graph _ st2

/-! ## C10 : screen-to-world conversion is total, singular matrices fall
back to the identity -/

/-- C10: `getScatterGlPos` is a total function (it always returns a
2-component coordinate — totality is by construction in this model, as in
the source, which only performs arithmetic and a guarded inversion):
`mat3.invert` returns `null` exactly when the composed
`projection * transform` matrix has determinant zero, and in that case the
identity matrix is substituted, so the normalized-device point is returned
unchanged and picking degrades to "no match" instead of crashing. -/
theorem claimC10_getScatterGlPos_singular_fallback (projection transform : Mat3)
    (pos : ℚ × ℚ) :
    (mat3Invert (mat3Multiply projection transform) = none ↔
      mat3Det (mat3Multiply projection transform) = 0) ∧
    (mat3Det (mat3Multiply projection transform) = 0 →
      getScatterGlPos projection transform pos = pos) :=
  ⟨mat3Invert_eq_none_iff _, getScatterGlPos_singular projection transform pos⟩

theorem claimC10_witness :
    mat3Det (mat3Multiply (mat3Projection 2 2) (updateTransform 0 0 0)) = 0 ∧
    getScatterGlPos (mat3Projection 2 2) (updateTransform 0 0 0) (1/2, 1/3) = (1/2, 1/3) := by
  have hdet : mat3Det (mat3Multiply (mat3Projection 2 2) (updateTransform 0 0 0)) = 0 := by
    norm_num [mat3Det, mat3Multiply, mat3Projection, updateTransform]
  exact ⟨hdet,
    (claimC10_getScatterGlPos_singular_fallback (mat3Projection 2 2)
      (updateTransform 0 0 0) (1/2, 1/3)).2 hdet⟩

/-! ## Buffer manager: `loadData`, scales and the constructor guards

Colours: `glslColor` parses `rgb()/rgba()/#hex` strings with regexes and
maps channels through `scaleRGBToVec4` (a linear 0‥255 → 0‥1 scale); the
string parsing itself is not load-bearing for any claim, so colours are
modelled as already-parsed RGB channel triples (a malformed string, which
`glslColor` resolves to `null`, is out of scope here). -/

abbrev Rgb := ℚ × ℚ × ℚ

abbrev Vec4 := ℚ × ℚ × ℚ × ℚ

/-- An entry of `matrices.nodesPositions`: `[scales.x(x), scales.y(y), i]`.
The first two components are `Option ℚ` because the d3 scales produce `NaN`
(modelled `none`) when their domain or range is not a finite number. -/
abbrev PosEntry := Option ℚ × Option ℚ × ℚ

/-- An extent pair as built from `[Infinity, -Infinity]` seeds: `none`
stands for a value that is not a finite number (the untouched infinities,
or d3's `undefined`). -/
abbrev ExtPair := Option ℚ × Option ℚ

/-- A node input record (§6): `{id, label, x|position.x, y|position.y,
size, color?, attributes?}`.  `label` and `attributes` only flow into the
graph model and tooltips, which no claim touches. -/
structure NodeRec where
  id : ℕ
  x : Option ℚ
  y : Option ℚ
  position : Option (ℚ × ℚ)
  size : Option ℚ
  color : Option Rgb
deriving DecidableEq, Repr

/-- An edge input record (§6): `{sourceID|source, targetID|target,
size|weight?, color?, attributes?}`. -/
structure EdgeRec where
  sourceID : Option ℕ
  source : Option ℕ
  targetID : Option ℕ
  target : Option ℕ
  size : Option ℚ
  weight : Option ℚ
  color : Option Rgb
deriving DecidableEq, Repr

/-- The `data` constructor argument: `_has(data, 'nodes')` / `'edges'`
presence is modelled with `Option`. -/
structure DataObj where
  nodes : Option (List NodeRec)
  edges : Option (List EdgeRec)
deriving DecidableEq, Repr

/-- Errors thrown while loading data (all are `TypeError`s on member
access of `undefined` in JS). -/
inductive LoadError
  | missingPosition
  | emptyEdges
  | badEdgeEndpoint
deriving DecidableEq, Repr

/-- Constructor failures: the four descriptive validation errors plus a
wrapped data-loading error. -/
inductive CtorError
  | noContainer
  | noData
  | noNodes
  | noEdges
  | loadErr (e : LoadError)
deriving DecidableEq, Repr

/-- Whether a constructor error is one of the four descriptive validation
errors of lines 261–272 (rather than a `TypeError` escaping `loadData`). -/
def CtorError.isGuard : CtorError → Bool
  | .loadErr _ => false
  | _ => true

/-- The settings `loadData` reads (after merging `options` over the
defaults), plus the canvas size. -/
structure LoadCfg where
  width : ℚ
  height : ℚ
  graphMargin : ℚ
  nodesSizeRange : ℚ × ℚ
  edgesWeightRange : ℚ × ℚ
  defaultNodesOpacity : ℚ
  showEdges : Bool
deriving DecidableEq, Repr

/-- `const x = node.x ? node.x : node.position.x` — JS truthiness, so an
absent *or zero* `x` falls back to `position.x`, and if `position` is also
absent the member access throws. -/
def getXM (n : NodeRec) : Except LoadError ℚ :=
  match n.x with
  | some v =>
    if v ≠ 0 then .ok v
    else
      match n.position with
      | some p => .ok p.1
      | none => .error .missingPosition
  | none =>
    match n.position with
    | some p => .ok p.1
    | none => .error .missingPosition

/-- `const y = node.y ? node.y : node.position.y`. -/
def getYM (n : NodeRec) : Except LoadError ℚ :=
  match n.y with
  | some v =>
    if v ≠ 0 then .ok v
    else
      match n.position with
      | some p => .ok p.2
      | none => .error .missingPosition
  | none =>
    match n.position with
    | some p => .ok p.2
    | none => .error .missingPosition

/-- `if (v < ext[0]) ext[0] = v` against an `Infinity` seed. -/
def updLo (cur : Option ℚ) (v : ℚ) : Option ℚ :=
  match cur with
  | none => some v
  | some c => if v < c then some v else some c

/-- `if (v > ext[1]) ext[1] = v` against a `-Infinity` seed. -/
def updHi (cur : Option ℚ) (v : ℚ) : Option ℚ :=
  match cur with
  | none => some v
  | some c => if v > c then some v else some c

/-- One extent update; an `undefined` value compares false on both sides
in JS and leaves the extent untouched. -/
def updExtWith (cur : ExtPair) (v : Option ℚ) : ExtPair :=
  match v with
  | none => cur
  | some s => (updLo cur.1 s, updHi cur.2 s)

/-- The node size/x/y extents accumulated by the first `nodes.forEach`. -/
structure NodeExts where
  size : ExtPair
  x : ExtPair
  y : ExtPair
deriving DecidableEq, Repr

/-- The single-pass extent loop over the nodes (`loadData` lines 471–492). -/
def nodeExtentsM : List NodeRec → NodeExts → Except LoadError NodeExts
  | [], acc => .ok acc
  | n :: rest, acc =>
    match getXM n with
    | .error e => .error e
    | .ok x =>
      match getYM n with
      | .error e => .error e
      | .ok y =>
        nodeExtentsM rest
          { size := updExtWith acc.size n.size
            x := updExtWith acc.x (some x)
            y := updExtWith acc.y (some y) }

/-- d3 `extent`: min/max ignoring `undefined` entries. -/
def d3Extent (l : List (Option ℚ)) : ExtPair :=
  l.foldl
    (fun acc v =>
      match v with
      | none => acc
      | some s => (updLo acc.1 s, updHi acc.2 s))
    (none, none)

/-- The edge-weight extent block (`loadData` lines 462–470): it reads
`edges[0]`, which throws on an empty edge array; when the first edge has
neither `size` nor `weight`, the extent defaults to `[0, 1]`; otherwise
the field *name* is chosen by the truthiness of `edges[0].size`. -/
def weightExtentM : List EdgeRec → Except LoadError ExtPair
  | [] => .error .emptyEdges
  | e0 :: rest =>
    if e0.size ≠ none ∨ e0.weight ≠ none then
      .ok (if qTruthy e0.size
        then d3Extent ((e0 :: rest).map (fun e => e.size))
        else d3Extent ((e0 :: rest).map (fun e => e.weight)))
    else .ok (some 0, some 1)

/-- `ReglGraph.layoutAspectRatio(xExtent, yExtent)`.  JS yields
`Infinity`/`NaN` when a ceiled extent difference is zero (all nodes
sharing one coordinate); `ℚ` division by zero yields `0` instead — no
theorem below depends on the margin values in that region. -/
def layoutAspectRatio (width height graphMargin : ℚ) (xExt yExt : ℚ × ℚ) : ℚ × ℚ :=
  let cx : ℚ := ((jsCeil (xExt.2 - xExt.1) : ℤ) : ℚ)
  let cy : ℚ := ((jsCeil (yExt.2 - yExt.1) : ℤ) : ℚ)
  let factorX := (width - graphMargin * 2) / cx
  let factorY := (height - graphMargin * 2) / cy
  let factor := min factorX factorY
  (((width - graphMargin * 2) - factor * cx) / 2,
   ((height - graphMargin * 2) - factor * cy) / 2)

/-- `layoutAspectRatio` applied to possibly-infinite extents: with an
empty node list the extents stay `[Infinity, -Infinity]` and JS computes
`NaN` margins (modelled `none`). -/
def layoutAspectRatioOpt (width height graphMargin : ℚ) (xExt yExt : ExtPair) :
    Option ℚ × Option ℚ :=
  match xExt, yExt with
  | (some x0, some x1), (some y0, some y1) =>
    let m := layoutAspectRatio width height graphMargin (x0, x1) (y0, y1)
    (some m.1, some m.2)
  | _, _ => (none, none)

/-- A d3 linear scale for a position axis: `NaN` (`none`) propagates from
an undefined domain or range. -/
def axisScale (ext : ExtPair) (r0 r1 : Option ℚ) (v : ℚ) : Option ℚ :=
  match ext, r0, r1 with
  | (some a, some b), some s0, some s1 => some (scaleLinearQ a b s0 s1 v)
  | _, _, _ => none

/-- `scales.size` applied to `node.size`: an absent size or an undefined
domain yields `NaN` (`none`). -/
def sizeScale (ext : ExtPair) (range : ℚ × ℚ) (v : Option ℚ) : Option ℚ :=
  match v, ext with
  | some s, (some a, some b) => some (scaleLinearQ a b range.1 range.2 s)
  | _, _ => none

/-- `scales.weight`: `scaleLinear().domain(extents.weight).rangeRound(
extents.weight[0] === extents.weight[1] ? [1, 1] : edgesWeightRange)`.
The degenerate-extent collapse to `[1, 1]` avoids d3's division by zero;
`rangeRound` rounds with `Math.round`. -/
def weightScale (ext : ExtPair) (cfgRange : ℚ × ℚ) (v : ℚ) : Option ℚ :=
  match ext with
  | (some a, some b) =>
    let r := if a = b then ((1 : ℚ), (1 : ℚ)) else cfgRange
    some ((jsRound (scaleLinearQ a b r.1 r.2 v) : ℤ) : ℚ)
  | _ => none

/-- `scaleRGBToVec4` on each channel plus the opacity. -/
def glslColorOf (opacity : ℚ) (c : Rgb) : Vec4 :=
  (c.1 / 255, c.2.1 / 255, c.2.2 / 255, opacity)

/-- `node.color ? glslColor(node.color, defaultNodesOpacity)
: [1, 1, 1, defaultNodesOpacity]`. -/
def nodeColorEntry (opacity : ℚ) (n : NodeRec) : Vec4 :=
  match n.color with
  | some c => glslColorOf opacity c
  | none => (1, 1, 1, opacity)

/-- The scale data threaded through the node loop. -/
structure NodeScales where
  xExt : ExtPair
  yExt : ExtPair
  sizeExt : ExtPair
  rx0 : Option ℚ
  rx1 : Option ℚ
  ry0 : Option ℚ
  ry1 : Option ℚ
  sizeRange : ℚ × ℚ
  opacity : ℚ
deriving DecidableEq, Repr

/-- `[scales.x(x), scales.y(y), i]` — the node's render position with its
index embedded as the third component. -/
def nodePositionEntry (sc : NodeScales) (x y : ℚ) (i : ℕ) : PosEntry :=
  (axisScale sc.xExt sc.rx0 sc.rx1 x, axisScale sc.yExt sc.ry0 sc.ry1 y, (i : ℚ))

/-- `scales.size(node.size)`. -/
def nodeSizeEntry (sc : NodeScales) (n : NodeRec) : Option ℚ :=
  sizeScale sc.sizeExt sc.sizeRange n.size

/-- The second `nodes.forEach` (`loadData` lines 514–536): pushes one
position, one colour and one size entry per node, in input order. -/
def nodeLoopM (sc : NodeScales) :
    List NodeRec → ℕ → Except LoadError (List PosEntry × List Vec4 × List (Option ℚ))
  | [], _ => .ok ([], [], [])
  | n :: rest, i =>
    match getXM n with
    | .error e => .error e
    | .ok x =>
      match getYM n with
      | .error e => .error e
      | .ok y =>
        match nodeLoopM sc rest (i + 1) with
        | .error e => .error e
        | .ok t =>
          .ok (nodePositionEntry sc x y i :: t.1,
            nodeColorEntry sc.opacity n :: t.2.1,
            nodeSizeEntry sc n :: t.2.2)

/-- `matrices.edgesPositionsByWeight`: a `Map` from rendered line width to
the flat list of endpoint positions, in insertion order (JS `Map` keys use
SameValueZero, under which `NaN` — here `none` — equals itself). -/
abbrev Buckets := List (Option ℚ × List PosEntry)

/-- `if (!map.has(w)) map.set(w, []); map.get(w).push(src);
map.get(w).push(tgt)`. -/
def bucketAdd : Buckets → Option ℚ → PosEntry → PosEntry → Buckets
  | [], k, a, b => [(k, [a, b])]
  | (k0, l) :: rest, k, a, b =>
    if k0 = k then (k0, l ++ [a, b]) :: rest
    else (k0, l) :: bucketAdd rest k a b

/-- `edge.sourceID || edge.source` — JS `||`, so a *zero* id also falls
through to the second field. -/
def jsOrId (a b : Option ℕ) : Option ℕ :=
  match a with
  | some v => if v = 0 then b else a
  | none => b

/-- The id → render-position table built by `graph.addNode` (`addNode`
overwrites on duplicate ids, so the *last* occurrence wins). -/
abbrev LoadedNodes := List (ℕ × PosEntry)

/-- `this.app.graph.getNode(id).data.position`: `addLink` auto-creates
missing endpoint nodes *without data*, so the `.data.position` access
throws for any id that was not in the node list (and for an `undefined`
id). -/
def lookupNode (loaded : LoadedNodes) (ido : Option ℕ) : Except LoadError PosEntry :=
  match ido with
  | none => .error .badEdgeEndpoint
  | some i =>
    match loaded.reverse.lookup i with
    | some p => .ok p
    | none => .error .badEdgeEndpoint

/-- `typeof edge.size !== 'undefined' ? scales.weight(edge.size)
: typeof edge.weight !== 'undefined' ? scales.weight(edge.weight) : 1`. -/
def edgeWeightOf (wExt : ExtPair) (cfgRange : ℚ × ℚ) (e : EdgeRec) : Option ℚ :=
  match e.size with
  | some v => weightScale wExt cfgRange v
  | none =>
    match e.weight with
    | some v => weightScale wExt cfgRange v
    | none => some 1

/-- The `edges.forEach` (`loadData` lines 539–562): weight, endpoint
resolution and the per-weight bucket pushes (the edge's colour and
attributes flow only into the graph model, which no claim touches). -/
def edgeLoopM (loaded : LoadedNodes) (wExt : ExtPair) (cfgRange : ℚ × ℚ) :
    List EdgeRec → Buckets → Except LoadError Buckets
  | [], bs => .ok bs
  | e :: rest, bs =>
    match lookupNode loaded (jsOrId e.sourceID e.source) with
    | .error err => .error err
    | .ok src =>
      match lookupNode loaded (jsOrId e.targetID e.target) with
      | .error err => .error err
      | .ok tgt =>
        edgeLoopM loaded wExt cfgRange rest
          (bucketAdd bs (edgeWeightOf wExt cfgRange e) src tgt)

/-- The `this.matrices` produced by `loadData`. -/
structure Matrices where
  nodesPositions : List PosEntry
  edgesPositionsByWeight : Buckets
  nodeColors : List Vec4
  sizes : List (Option ℚ)
deriving DecidableEq, Repr

/-- The scale data for the node loop, from the extents and margins. -/
def mkNodeScales (cfg : LoadCfg) (exts : NodeExts) : NodeScales :=
  let margins := layoutAspectRatioOpt cfg.width cfg.height cfg.graphMargin exts.x exts.y
  { xExt := exts.x, yExt := exts.y, sizeExt := exts.size
    rx0 := margins.1.map (fun m => cfg.graphMargin + m)
    rx1 := margins.1.map (fun m => cfg.width - cfg.graphMargin - m)
    ry0 := margins.2.map (fun m => cfg.graphMargin + m)
    ry1 := margins.2.map (fun m => cfg.height - cfg.graphMargin - m)
    sizeRange := cfg.nodesSizeRange, opacity := cfg.defaultNodesOpacity }

/-- `ReglGraph.loadData(data)`. -/
def loadDataM (cfg : LoadCfg) (nodes : List NodeRec) (edges : List EdgeRec) :
    Except LoadError Matrices :=
  match (if cfg.showEdges then weightExtentM edges else .ok ((none, none) : ExtPair)) with
  | .error e => .error e
  | .ok wExt =>
    match nodeExtentsM nodes ⟨(none, none), (none, none), (none, none)⟩ with
    | .error e => .error e
    | .ok exts =>
      match nodeLoopM (mkNodeScales cfg exts) nodes 0 with
      | .error e => .error e
      | .ok t =>
        match (if cfg.showEdges then
            edgeLoopM ((nodes.map (fun n => n.id)).zip t.1) wExt cfg.edgesWeightRange edges []
          else .ok ([] : Buckets)) with
        | .error e => .error e
        | .ok buckets => .ok ⟨t.1, buckets, t.2.1, t.2.2⟩

/-- The constructor (`ReglGraph.constructor` lines 257–272 followed by the
data-loading part of `init`): the four synchronous validation guards in
order, then `loadData`.  Canvas/regl/DOM creation are external
collaborators (spec §1) and cannot throw in this model. -/
def constructModel (container : Option Unit) (dataOpt : Option DataObj)
    (showEdgesOpt : Option Bool) (cfg : LoadCfg) : Except CtorError Matrices :=
  match container with
  | none => .error .noContainer
  | some _ =>
    match dataOpt with
    | none => .error .noData
    | some d =>
      match d.nodes with
      | none => .error .noNodes
      | some ns =>
        if showEdgesOpt.getD true = true ∧ d.edges = none then .error .noEdges
        else
          match loadDataM { cfg with showEdges := showEdgesOpt.getD true } ns
              ((d.edges).getD []) with
          | .ok m => .ok m
          | .error e => .error (.loadErr e)

/-! ## Node-loop and load lemmas -/

theorem nodeLoopM_spec (sc : NodeScales) :
    ∀ (ns : List NodeRec) (i : ℕ) (t : List PosEntry × List Vec4 × List (Option ℚ)),
      nodeLoopM sc ns i = .ok t →
      (t.1.length = ns.length ∧ t.2.1.length = ns.length ∧ t.2.2.length = ns.length) ∧
      ∀ k, ∀ hk : k < ns.length,
        ∃ xv yv, getXM (ns.get ⟨k, hk⟩) = .ok xv ∧ getYM (ns.get ⟨k, hk⟩) = .ok yv ∧
          t.1.get? k = some (nodePositionEntry sc xv yv (i + k)) ∧
          t.2.1.get? k = some (nodeColorEntry sc.opacity (ns.get ⟨k, hk⟩)) ∧
          t.2.2.get? k = some (nodeSizeEntry sc (ns.get ⟨k, hk⟩))
  | [], i, t => by
    intro h
    unfold nodeLoopM at h
    simp only [Except.ok.injEq] at h
    subst h
    refine ⟨⟨rfl, rfl, rfl⟩, ?_⟩
    intro k hk
    exact absurd hk (by simp)
  | n :: rest, i, t => by
    intro h
    unfold nodeLoopM at h
    cases hx : getXM n with
    | error e => rw [hx] at h; simp at h
    | ok x =>
      rw [hx] at h
      cases hy : getYM n with
      | error e => rw [hy] at h; simp at h
      | ok y =>
        rw [hy] at h
        cases hrec : nodeLoopM sc rest (i + 1) with
        | error e => rw [hrec] at h; simp at h
        | ok t0 =>
          rw [hrec] at h
          simp only [Except.ok.injEq] at h
          subst h
          obtain ⟨⟨hl1, hl2, hl3⟩, hall⟩ := nodeLoopM_spec sc rest (i + 1) t0 hrec
          refine ⟨⟨by simp [hl1], by simp [hl2], by simp [hl3]⟩, ?_⟩
          intro k hk
          cases k with
          | zero =>
            refine ⟨x, y, hx, hy, ?_, rfl, rfl⟩
            simp
          | succ k0 =>
            have hk0 : k0 < rest.length := by simpa using hk
            obtain ⟨xv, yv, hgx, hgy, hp, hc, hs⟩ := hall k0 hk0
            have harith : i + 1 + k0 = i + (k0 + 1) := by omega
            rw [harith] at hp
            exact ⟨xv, yv, hgx, hgy, by simpa using hp, by simpa using hc, by simpa using hs⟩

theorem loadDataM_ok_elim (cfg : LoadCfg) (nodes : List NodeRec) (edges : List EdgeRec)
    (m : Matrices) (h : loadDataM cfg nodes edges = .ok m) :
    ∃ wExt exts t buckets,
      (if cfg.showEdges then weightExtentM edges else .ok ((none, none) : ExtPair))
        = .ok wExt ∧
      nodeExtentsM nodes ⟨(none, none), (none, none), (none, none)⟩ = .ok exts ∧
      nodeLoopM (mkNodeScales cfg exts) nodes 0 = .ok t ∧
      (if cfg.showEdges then
          edgeLoopM ((nodes.map (fun n => n.id)).zip t.1) wExt cfg.edgesWeightRange edges []
        else .ok ([] : Buckets)) = .ok buckets ∧
      m = ⟨t.1, buckets, t.2.1, t.2.2⟩ := by
  unfold loadDataM at h
  split at h
  next e heq => simp at h
  next wExt heq =>
    split at h
    next e heq2 => simp at h
    next exts heq2 =>
      split at h
      next e heq3 => simp at h
      next t heq3 =>
        split at h
        next e heq4 => simp at h
        next buckets heq4 =>
          simp only [Except.ok.injEq] at h
          exact ⟨wExt, exts, t, buckets, heq, heq2, heq3, heq4, h.symm⟩

/-- C7: for every node input on which loading succeeds, the position,
colour and size arrays each contain exactly `nodes.length` entries; the
node read from input position `k` occupies slot `k` of all three parallel
arrays (its entries are computed from `nodes[k]` by the loop's entry
functions), and the third component of its render position equals `k`. -/
theorem claimC7_parallel_arrays (cfg : LoadCfg) (nodes : List NodeRec)
    (edges : List EdgeRec) (m : Matrices) (h : loadDataM cfg nodes edges = .ok m) :
    m.nodesPositions.length = nodes.length ∧
    m.nodeColors.length = nodes.length ∧
    m.sizes.length = nodes.length ∧
    ∃ exts, nodeExtentsM nodes ⟨(none, none), (none, none), (none, none)⟩ = .ok exts ∧
      ∀ k, ∀ hk : k < nodes.length,
        ∃ xv yv, getXM (nodes.get ⟨k, hk⟩) = .ok xv ∧ getYM (nodes.get ⟨k, hk⟩) = .ok yv ∧
          m.nodesPositions.get? k =
            some (nodePositionEntry (mkNodeScales cfg exts) xv yv k) ∧
          m.nodeColors.get? k =
            some (nodeColorEntry cfg.defaultNodesOpacity (nodes.get ⟨k, hk⟩)) ∧
          m.sizes.get? k = some (nodeSizeEntry (mkNodeScales cfg exts) (nodes.get ⟨k, hk⟩)) ∧
          (m.nodesPositions.get? k).map (fun p => p.2.2) = some ((k : ℕ) : ℚ) := by
  obtain ⟨wExt, exts, t, buckets, hw, hx, ht, hb, hm⟩ := loadDataM_ok_elim cfg nodes edges m h
  obtain ⟨⟨hl1, hl2, hl3⟩, hall⟩ := nodeLoopM_spec (mkNodeScales cfg exts) nodes 0 t ht
  subst hm
  refine ⟨hl1, hl2, hl3, exts, hx, ?_⟩
  intro k hk
  obtain ⟨xv, yv, hgx, hgy, hp, hc, hs⟩ := hall k hk
  rw [show 0 + k = k from by omega] at hp
  refine ⟨xv, yv, hgx, hgy, hp, hc, hs, ?_⟩
  rw [hp]
  rfl

def cfgC7 : LoadCfg :=
  { width := 2, height := 2, graphMargin := 0, nodesSizeRange := (5, 30)
    edgesWeightRange := (1, 5), defaultNodesOpacity := 1, showEdges := false }

def nodeC7 : NodeRec :=
  { id := 0, x := some 1, y := some 1, position := none, size := none, color := none }

def mC7 : Matrices :=
  { nodesPositions := [(some 1, some 1, 0)], edgesPositionsByWeight := []
    nodeColors := [(1, 1, 1, 1)], sizes := [none] }

theorem loadDataM_cfgC7 : loadDataM cfgC7 [nodeC7] [] = .ok mC7 := by
  norm_num [loadDataM, cfgC7, nodeC7, mC7, weightExtentM, nodeExtentsM, getXM, getYM,
    nodeLoopM, mkNodeScales, layoutAspectRatioOpt, layoutAspectRatio, updExtWith, updLo,
    updHi, axisScale, sizeScale, scaleLinearQ, nodePositionEntry, nodeColorEntry,
    nodeSizeEntry, glslColorOf, jsCeil]

theorem claimC7_witness :
    mC7.nodesPositions.length = ([nodeC7] : List NodeRec).length ∧
    mC7.nodeColors.length = ([nodeC7] : List NodeRec).length ∧
    mC7.sizes.length = ([nodeC7] : List NodeRec).length ∧
    ∃ exts,
      nodeExtentsM [nodeC7] ⟨(none, none), (none, none), (none, none)⟩ = .ok exts ∧
      ∀ k, ∀ hk : k < ([nodeC7] : List NodeRec).length,
        ∃ xv yv, getXM (([nodeC7] : List NodeRec).get ⟨k, hk⟩) = .ok xv ∧
          getYM (([nodeC7] : List NodeRec).get ⟨k, hk⟩) = .ok yv ∧
          mC7.nodesPositions.get? k =
            some (nodePositionEntry (mkNodeScales cfgC7 exts) xv yv k) ∧
          mC7.nodeColors.get? k =
            some (nodeColorEntry cfgC7.defaultNodesOpacity
              (([nodeC7] : List NodeRec).get ⟨k, hk⟩)) ∧
          mC7.sizes.get? k =
            some (nodeSizeEntry (mkNodeScales cfgC7 exts)
              (([nodeC7] : List NodeRec).get ⟨k, hk⟩)) ∧
          (mC7.nodesPositions.get? k).map (fun p => p.2.2) = some ((k : ℕ) : ℚ) :=
  claimC7_parallel_arrays cfgC7 [nodeC7] [] mC7 loadDataM_cfgC7

/-! ## C6 : constructor validation -/

theorem nodeExtentsM_ok :
    ∀ (ns : List NodeRec) (acc : NodeExts),
      (∀ n ∈ ns, (∃ v, getXM n = .ok v) ∧ (∃ v, getYM n = .ok v)) →
      ∃ r, nodeExtentsM ns acc = .ok r
  | [], acc, _ => ⟨acc, rfl⟩
  | n :: rest, acc, h => by
    obtain ⟨⟨x, hx⟩, y, hy⟩ := h n (List.mem_cons_self _ _)
    obtain ⟨r, hr⟩ := nodeExtentsM_ok rest
      { size := updExtWith acc.size n.size
        x := updExtWith acc.x (some x)
        y := updExtWith acc.y (some y) }
      (fun m hm => h m (List.mem_cons_of_mem _ hm))
    exact ⟨r, by unfold nodeExtentsM; rw [hx, hy]; exact hr⟩

theorem nodeLoopM_ok (sc : NodeScales) :
    ∀ (ns : List NodeRec) (i : ℕ),
      (∀ n ∈ ns, (∃ v, getXM n = .ok v) ∧ (∃ v, getYM n = .ok v)) →
      ∃ t, nodeLoopM sc ns i = .ok t
  | [], _, _ => ⟨([], [], []), rfl⟩
  | n :: rest, i, h => by
    obtain ⟨⟨x, hx⟩, y, hy⟩ := h n (List.mem_cons_self _ _)
    obtain ⟨t, ht⟩ := nodeLoopM_ok sc rest (i + 1) (fun m hm => h m (List.mem_cons_of_mem _ hm))
    exact ⟨_, by unfold nodeLoopM; rw [hx, hy, ht]⟩

theorem weightExtentM_ok (es : List EdgeRec) (h : es ≠ []) :
    ∃ w, weightExtentM es = .ok w := by
  cases es with
  | nil => exact absurd rfl h
  | cons e0 rest =>
    by_cases hb : e0.size ≠ none ∨ e0.weight ≠ none
    · exact ⟨_, by simp only [weightExtentM]; rw [if_pos hb]⟩
    · exact ⟨_, by simp only [weightExtentM]; rw [if_neg hb]⟩

theorem lookup_of_mem_keys :
    ∀ (l : List (ℕ × PosEntry)) (a : ℕ), a ∈ l.map Prod.fst → ∃ p, l.lookup a = some p
  | [], a, h => absurd h (by simp)
  | (k, v) :: rest, a, h => by
    by_cases hak : a = k
    · exact ⟨v, by simp [List.lookup, hak]⟩
    · have hmem : a ∈ rest.map Prod.fst := by
        rcases (by simpa using h : a = k ∨ a ∈ rest.map Prod.fst) with h1 | h1
        · exact absurd h1 hak
        · exact h1
      obtain ⟨p, hp⟩ := lookup_of_mem_keys rest a hmem
      have hbeq : (a == k) = false := beq_eq_false_iff_ne.mpr hak
      exact ⟨p, by simp [List.lookup, hbeq, hp]⟩

theorem lookupNode_ok (loaded : LoadedNodes) (ido : Option ℕ)
    (h : ∃ s, ido = some s ∧ s ∈ loaded.map Prod.fst) :
    ∃ p, lookupNode loaded ido = .ok p := by
  obtain ⟨s, rfl, hs⟩ := h
  have hs2 : s ∈ loaded.reverse.map Prod.fst := by
    rw [List.map_reverse]
    simpa using hs
  obtain ⟨p, hp⟩ := lookup_of_mem_keys loaded.reverse s hs2
  exact ⟨p, by simp only [lookupNode]; rw [hp]⟩

theorem edgeLoopM_ok (loaded : LoadedNodes) (wExt : ExtPair) (rng : ℚ × ℚ) :
    ∀ (es : List EdgeRec) (bs : Buckets),
      (∀ e ∈ es,
        (∃ s, jsOrId e.sourceID e.source = some s ∧ s ∈ loaded.map Prod.fst) ∧
        (∃ s, jsOrId e.targetID e.target = some s ∧ s ∈ loaded.map Prod.fst)) →
      ∃ r, edgeLoopM loaded wExt rng es bs = .ok r
  | [], bs, _ => ⟨bs, rfl⟩
  | e :: rest, bs, h => by
    obtain ⟨p1, hp1⟩ := lookupNode_ok loaded _ (h e (List.mem_cons_self _ _)).1
    obtain ⟨p2, hp2⟩ := lookupNode_ok loaded _ (h e (List.mem_cons_self _ _)).2
    obtain ⟨r, hr⟩ := edgeLoopM_ok loaded wExt rng rest
      (bucketAdd bs (edgeWeightOf wExt rng e) p1 p2)
      (fun e2 he2 => h e2 (List.mem_cons_of_mem _ he2))
    exact ⟨r, by unfold edgeLoopM; rw [hp1, hp2]; exact hr⟩

theorem loadDataM_ok_intro (cfg : LoadCfg) (ns : List NodeRec) (es : List EdgeRec)
    (hn : ∀ n ∈ ns, (∃ v, getXM n = .ok v) ∧ (∃ v, getYM n = .ok v))
    (he1 : cfg.showEdges = true → es ≠ [])
    (he2 : cfg.showEdges = true → ∀ e ∈ es,
      (∃ s, jsOrId e.sourceID e.source = some s ∧ s ∈ ns.map NodeRec.id) ∧
      (∃ s, jsOrId e.targetID e.target = some s ∧ s ∈ ns.map NodeRec.id)) :
    ∃ m, loadDataM cfg ns es = .ok m := by
  obtain ⟨wExt, hw⟩ : ∃ w,
      (if cfg.showEdges then weightExtentM es else .ok ((none, none) : ExtPair)) = .ok w := by
    by_cases hs : cfg.showEdges = true
    · rw [if_pos hs]
      exact weightExtentM_ok es (he1 hs)
    · rw [if_neg hs]
      exact ⟨(none, none), rfl⟩
  obtain ⟨exts, hx⟩ := nodeExtentsM_ok ns ⟨(none, none), (none, none), (none, none)⟩ hn
  obtain ⟨t, ht⟩ := nodeLoopM_ok (mkNodeScales cfg exts) ns 0 hn
  have hkeys : ((ns.map (fun n => n.id)).zip t.1).map Prod.fst = ns.map NodeRec.id := by
    apply List.map_fst_zip
    have hlen := (nodeLoopM_spec _ ns 0 t ht).1.1
    simp [hlen]
  obtain ⟨buckets, hb⟩ : ∃ b,
      (if cfg.showEdges then
        edgeLoopM ((ns.map (fun n => n.id)).zip t.1) wExt cfg.edgesWeightRange es []
      else .ok ([] : Buckets)) = .ok b := by
    by_cases hs : cfg.showEdges = true
    · rw [if_pos hs]
      apply edgeLoopM_ok
      intro e hee
      obtain ⟨⟨s1, hs1, hm1⟩, s2, hs2, hm2⟩ := he2 hs e hee
      exact ⟨⟨s1, hs1, by rw [hkeys]; exact hm1⟩, ⟨s2, hs2, by rw [hkeys]; exact hm2⟩⟩
    · rw [if_neg hs]
      exact ⟨[], rfl⟩
  refine ⟨⟨t.1, buckets, t.2.1, t.2.2⟩, ?_⟩
  simp only [loadDataM, hw, hx, ht, hb]

/-- C6 counterexample: the input `(container, {nodes: [node], edges: []})`
passes all four validation guards (edges are *present*), yet construction
still throws: `loadData` reads `edges[0].size` on the empty edge array, a
`TypeError`, not one of the descriptive validation errors.  So "for every
other well-formed input it constructs without throwing" is false as
stated. -/
theorem claimC6_counterexample :
    constructModel (some ()) (some ⟨some [nodeC7], some []⟩) none cfgC7 =
      .error (CtorError.loadErr LoadError.emptyEdges) ∧
    CtorError.isGuard (CtorError.loadErr LoadError.emptyEdges) = false :=
  ⟨rfl, rfl⟩

/-- C6 (amended): the constructor throws one of the four *descriptive*
validation errors precisely when the container is absent, the data is
absent, `nodes` is absent, or edges are enabled (showEdges true or
unspecified) and `edges` is absent; passing validation does not by itself
guarantee construction, but it does succeed for every input whose nodes
all carry usable coordinates (`x`/`y` truthy or a `position` object) and
whose edge list, when edges are enabled, is non-empty with endpoints
resolving to loaded node ids. -/
theorem claimC6_amended_constructor_validation (container : Option Unit)
    (dataOpt : Option DataObj) (showEdgesOpt : Option Bool) (cfg : LoadCfg) :
    ((∃ e, constructModel container dataOpt showEdgesOpt cfg = .error e ∧
        e.isGuard = true) ↔
      (container = none ∨ dataOpt = none ∨
        ∃ d, dataOpt = some d ∧
          (d.nodes = none ∨ (showEdgesOpt.getD true = true ∧ d.edges = none))))
    ∧ (∀ d ns es, dataOpt = some d → d.nodes = some ns → d.edges = some es →
        container = some () →
        (∀ n ∈ ns, (∃ v, getXM n = .ok v) ∧ (∃ v, getYM n = .ok v)) →
        (showEdgesOpt.getD true = true → es ≠ []) →
        (showEdgesOpt.getD true = true → ∀ e ∈ es,
          (∃ s, jsOrId e.sourceID e.source = some s ∧ s ∈ ns.map NodeRec.id) ∧
          (∃ s, jsOrId e.targetID e.target = some s ∧ s ∈ ns.map NodeRec.id)) →
        ∃ m, constructModel container dataOpt showEdgesOpt cfg = .ok m) := by
  constructor
  · cases container with
    | none =>
      constructor
      · intro _
        exact Or.inl rfl
      · intro _
        exact ⟨CtorError.noContainer, rfl, rfl⟩
    | some u =>
      cases dataOpt with
      | none =>
        constructor
        · intro _
          exact Or.inr (Or.inl rfl)
        · intro _
          exact ⟨CtorError.noData, rfl, rfl⟩
      | some d =>
        obtain ⟨dnodes, dedges⟩ := d
        cases dnodes with
        | none =>
          constructor
          · intro _
            exact Or.inr (Or.inr ⟨⟨none, dedges⟩, rfl, Or.inl rfl⟩)
          · intro _
            exact ⟨CtorError.noNodes, rfl, rfl⟩
        | some ns =>
          by_cases hif : showEdgesOpt.getD true = true ∧ dedges = none
          · constructor
            · intro _
              exact Or.inr (Or.inr ⟨⟨some ns, dedges⟩, rfl, Or.inr hif⟩)
            · intro _
              refine ⟨CtorError.noEdges, ?_, rfl⟩
              simp only [constructModel]
              rw [if_pos hif]
          · constructor
            · rintro ⟨e, he, hg⟩
              exfalso
              simp only [constructModel] at he
              rw [if_neg hif] at he
              cases hld : loadDataM { cfg with showEdges := showEdgesOpt.getD true } ns
                  (dedges.getD []) with
              | ok m => rw [hld] at he; simp at he
              | error e2 =>
                rw [hld] at he
                simp only [Except.error.injEq] at he
                rw [← he] at hg
                simp [CtorError.isGuard] at hg
            · rintro (h | h | ⟨d2, hd2, h⟩)
              · simp at h
              · simp at h
              · rw [Option.some_inj] at hd2
                rw [← hd2] at h
                rcases h with h | h
                · simp at h
                · exact absurd h hif
  · intro d ns es hd hns hes hc hn he1 he2
    subst hd
    subst hc
    obtain ⟨m, hm⟩ := loadDataM_ok_intro { cfg with showEdges := showEdgesOpt.getD true }
      ns es hn he1 he2
    refine ⟨m, ?_⟩
    obtain ⟨dnodes, dedges⟩ := d
    simp only at hns hes
    subst hns
    subst hes
    simp only [constructModel]
    rw [if_neg (by simp), show (some es).getD ([] : List EdgeRec) = es from rfl, hm]

theorem claimC6_witness :
    ∃ m, constructModel (some ()) (some ⟨some [nodeC7], some []⟩) (some false) cfgC7
      = .ok m :=
  (claimC6_amended_constructor_validation (some ()) (some ⟨some [nodeC7], some []⟩)
    (some false) cfgC7).2 ⟨some [nodeC7], some []⟩ [nodeC7] [] rfl rfl rfl rfl
    (by
      intro n hn
      rw [List.mem_singleton] at hn
      subst hn
      exact ⟨⟨1, rfl⟩, ⟨1, rfl⟩⟩)
    (by intro h; simp at h)
    (by intro h; simp at h)

/-! ## C8 : coordinate fallbacks exist, the size fallback does not -/

/-- C8 counterexample: a node whose `size` field is absent loads with a
`NaN` size entry (`none`) — no alternate field is consulted (`loadData`
reads only `node.size`), so the loaded size is not any number, let alone
a fallback field's value. -/
theorem claimC8_counterexample :
    nodeC7.size = none ∧
    loadDataM cfgC7 [nodeC7] [] = .ok mC7 ∧
    mC7.sizes = [none] ∧
    (∀ q : ℚ, mC7.sizes ≠ [some q]) :=
  ⟨rfl, loadDataM_cfgC7, rfl, fun q h => by simp [mC7] at h⟩

/-- C8 (amended): the coordinate fields do fall back — when `x` (resp.
`y`) is falsy (absent *or zero*), loading reads `position.x` (resp.
`position.y`), and if `position` is also absent it throws rather than
substituting zero; the node `size` however has *no* alternate-field
fallback: an absent size loads as `NaN` (`none`), never as zero and never
from another field (the `size|weight` alternate-name fallback exists only
for edges). -/
theorem claimC8_amended_fallbacks (n : NodeRec) (p : ℚ × ℚ) (sc : NodeScales) :
    (qTruthy n.x = false → n.position = some p → getXM n = .ok p.1) ∧
    (qTruthy n.y = false → n.position = some p → getYM n = .ok p.2) ∧
    (qTruthy n.x = false → n.position = none →
      getXM n = .error LoadError.missingPosition) ∧
    (n.size = none → nodeSizeEntry sc n = none) := by
  refine ⟨?_, ?_, ?_, ?_⟩
  · intro hx hp
    cases hnx : n.x with
    | none => simp only [getXM, hnx, hp]
    | some v =>
      rw [hnx] at hx
      simp only [qTruthy, bne_eq_false_iff_eq] at hx
      subst hx
      simp only [getXM, hnx, hp]
      rw [if_neg (by simp)]
  · intro hy hp
    cases hny : n.y with
    | none => simp only [getYM, hny, hp]
    | some v =>
      rw [hny] at hy
      simp only [qTruthy, bne_eq_false_iff_eq] at hy
      subst hy
      simp only [getYM, hny, hp]
      rw [if_neg (by simp)]
  · intro hx hp
    cases hnx : n.x with
    | none => simp only [getXM, hnx, hp]
    | some v =>
      rw [hnx] at hx
      simp only [qTruthy, bne_eq_false_iff_eq] at hx
      subst hx
      simp only [getXM, hnx, hp]
      rw [if_neg (by simp)]
  · intro hs
    simp only [nodeSizeEntry, sizeScale, hs]

/-- A node with both coordinate fields absent, carried by a `position`
object, and no size. -/
def nodeC8 : NodeRec :=
  { id := 1, x := none, y := none, position := some (3, 4), size := none, color := none }

def scC8 : NodeScales :=
  { xExt := (none, none), yExt := (none, none), sizeExt := (none, none)
    rx0 := none, rx1 := none, ry0 := none, ry1 := none
    sizeRange := (5, 30), opacity := 1 }

theorem claimC8_witness :
    getXM nodeC8 = .ok 3 ∧ getYM nodeC8 = .ok 4 ∧ nodeSizeEntry scC8 nodeC8 = none :=
  ⟨(claimC8_amended_fallbacks nodeC8 (3, 4) scC8).1 rfl rfl,
   (claimC8_amended_fallbacks nodeC8 (3, 4) scC8).2.1 rfl rfl,
   (claimC8_amended_fallbacks nodeC8 (3, 4) scC8).2.2.2 rfl⟩

/-! ## C9 : degenerate edge-weight extent collapses to width 1 -/

theorem d3Extent_fold_const (w : ℚ) :
    ∀ l : List (Option ℚ), (∀ v ∈ l, v = some w) →
      l.foldl
        (fun acc v =>
          match v with
          | none => acc
          | some s => (updLo acc.1 s, updHi acc.2 s))
        (some w, some w) = (some w, some w)
  | [], _ => rfl
  | v :: rest, h => by
    have hv : v = some w := h v (List.mem_cons_self _ _)
    subst hv
    simp only [List.foldl_cons]
    have hstep : (updLo (some w) w, updHi (some w) w) = ((some w : Option ℚ), (some w : Option ℚ)) := by
      simp [updLo, updHi]
    rw [hstep]
    exact d3Extent_fold_const w rest (fun u hu => h u (List.mem_cons_of_mem _ hu))

theorem d3Extent_all_eq (w : ℚ) (l : List (Option ℚ)) (hne : l ≠ [])
    (h : ∀ v ∈ l, v = some w) : d3Extent l = (some w, some w) := by
  cases l with
  | nil => exact absurd rfl hne
  | cons v rest =>
    have hv : v = some w := h v (List.mem_cons_self _ _)
    subst hv
    unfold d3Extent
    simp only [List.foldl_cons]
    have hstep : (updLo none w, updHi none w) = ((some w : Option ℚ), (some w : Option ℚ)) := by
      simp [updLo, updHi]
    rw [hstep]
    exact d3Extent_fold_const w rest (fun u hu => h u (List.mem_cons_of_mem _ hu))

theorem weightExtentM_all_eq (w : ℚ) (es : List EdgeRec) (hne : es ≠ [])
    (hw : ∀ e ∈ es, e.size = none ∧ e.weight = some w) :
    weightExtentM es = .ok (some w, some w) := by
  cases es with
  | nil => exact absurd rfl hne
  | cons e0 rest =>
    obtain ⟨hs0, hw0⟩ := hw e0 (List.mem_cons_self _ _)
    simp only [weightExtentM]
    rw [if_pos (Or.inr (by rw [hw0]; simp)), show qTruthy e0.size = false from by
      rw [hs0]; rfl]
    simp only [Bool.false_eq_true, if_false, Except.ok.injEq]
    apply d3Extent_all_eq
    · simp
    · intro v hv
      rw [List.mem_map] at hv
      obtain ⟨e, he, hev⟩ := hv
      rw [← hev]
      exact (hw e he).2

theorem weightScale_degenerate (w : ℚ) (rng : ℚ × ℚ) (v : ℚ) :
    weightScale (some w, some w) rng v = some 1 := by
  simp only [weightScale, scaleLinearQ, if_pos rfl, jsRound]
  norm_num

theorem edgeWeightOf_degenerate (w : ℚ) (rng : ℚ × ℚ) (e : EdgeRec)
    (hs : e.size = none) :
    edgeWeightOf (some w, some w) rng e = some 1 := by
  simp only [edgeWeightOf, hs]
  cases hw : e.weight with
  | none => rfl
  | some v => exact weightScale_degenerate w rng v

theorem bucketAdd_keys (k : Option ℚ) (a b : PosEntry) :
    ∀ bs : Buckets,
      (bucketAdd bs k a b).map Prod.fst =
        if k ∈ bs.map Prod.fst then bs.map Prod.fst else bs.map Prod.fst ++ [k]
  | [] => by simp [bucketAdd]
  | (k0, l) :: rest => by
    by_cases hk : k0 = k
    · subst hk
      simp [bucketAdd]
    · have hrec := bucketAdd_keys k a b rest
      simp only [bucketAdd, if_neg hk, List.map_cons]
      rw [hrec]
      by_cases hmem : k ∈ rest.map Prod.fst
      · rw [if_pos hmem, if_pos (by simp [hmem])]
      · rw [if_neg hmem, if_neg (by simp [hmem, Ne.symm hk])]
        simp

theorem edgeLoopM_keys (loaded : LoadedNodes) (wExt : ExtPair) (rng : ℚ × ℚ) :
    ∀ (es : List EdgeRec) (bs : Buckets) (r : Buckets),
      (∀ e ∈ es, edgeWeightOf wExt rng e = some 1) →
      edgeLoopM loaded wExt rng es bs = .ok r →
      (bs.map Prod.fst = [some 1] ∨ (bs = [] ∧ es ≠ [])) →
      r.map Prod.fst = [some 1]
  | [], bs, r, _, h, hd => by
    unfold edgeLoopM at h
    simp only [Except.ok.injEq] at h
    subst h
    rcases hd with hd | ⟨_, hne⟩
    · exact hd
    · exact absurd rfl hne
  | e :: rest, bs, r, hall, h, hd => by
    unfold edgeLoopM at h
    cases h1 : lookupNode loaded (jsOrId e.sourceID e.source) with
    | error err => rw [h1] at h; simp at h
    | ok src =>
      rw [h1] at h
      cases h2 : lookupNode loaded (jsOrId e.targetID e.target) with
      | error err => rw [h2] at h; simp at h
      | ok tgt =>
        rw [h2] at h
        have hw1 : edgeWeightOf wExt rng e = some 1 := hall e (List.mem_cons_self _ _)
        have hkeys := bucketAdd_keys (edgeWeightOf wExt rng e) src tgt bs
        rw [hw1] at hkeys
        refine edgeLoopM_keys loaded wExt rng rest _ r
          (fun e2 he2 => hall e2 (List.mem_cons_of_mem _ he2)) h (Or.inl ?_)
        rcases hd with hd | ⟨hbs, _⟩
        · rw [hw1, hkeys, hd]
          simp
        · subst hbs
          rw [hw1, hkeys]
          simp

/-- C9: when every edge carries a `weight` and all weights are equal (a
degenerate extent), the weight scale's range collapses to `[1, 1]` —
every edge's computed line width is 1 rather than a value in the
configured `edgesWeightRange`, no division by zero occurs (the degenerate
domain takes d3's constant branch), and the bucket map ends up with the
single key 1. -/
theorem claimC9_degenerate_weight_scale (cfg : LoadCfg) (ns : List NodeRec)
    (es : List EdgeRec) (w : ℚ) (m : Matrices)
    (hshow : cfg.showEdges = true)
    (hne : es ≠ [])
    (hw : ∀ e ∈ es, e.size = none ∧ e.weight = some w)
    (h : loadDataM cfg ns es = .ok m) :
    weightExtentM es = .ok (some w, some w) ∧
    (∀ e ∈ es, edgeWeightOf (some w, some w) cfg.edgesWeightRange e = some 1) ∧
    m.edgesPositionsByWeight.map Prod.fst = [some 1] := by
  have hwext := weightExtentM_all_eq w es hne hw
  refine ⟨hwext, fun e he => edgeWeightOf_degenerate w _ e (hw e he).1, ?_⟩
  obtain ⟨wExt, exts, t, buckets, hwi, hx, ht, hb, hm⟩ := loadDataM_ok_elim cfg ns es m h
  rw [if_pos hshow] at hwi hb
  rw [hwext] at hwi
  simp only [Except.ok.injEq] at hwi
  subst hwi
  subst hm
  exact edgeLoopM_keys _ _ _ es [] buckets
    (fun e he => edgeWeightOf_degenerate w _ e (hw e he).1) hb (Or.inr ⟨rfl, hne⟩)

def cfgC9 : LoadCfg :=
  { width := 2, height := 2, graphMargin := 0, nodesSizeRange := (5, 30)
    edgesWeightRange := (1, 5), defaultNodesOpacity := 1, showEdges := true }

def nodeC9a : NodeRec :=
  { id := 1, x := some 1, y := some 1, position := none, size := none, color := none }

def nodeC9b : NodeRec :=
  { id := 2, x := some 2, y := some 2, position := none, size := none, color := none }

def edgeC9 : EdgeRec :=
  { sourceID := none, source := some 1, targetID := none, target := some 2
    size := none, weight := some 3, color := none }

def mC9 : Matrices :=
  { nodesPositions := [(some 0, some 0, 0), (some 2, some 2, 1)]
    edgesPositionsByWeight := [(some 1, [(some 0, some 0, 0), (some 2, some 2, 1)])]
    nodeColors := [(1, 1, 1, 1), (1, 1, 1, 1)], sizes := [none, none] }

theorem loadDataM_cfgC9 : loadDataM cfgC9 [nodeC9a, nodeC9b] [edgeC9] = .ok mC9 := by
  have hw : weightExtentM [edgeC9] = .ok (some 3, some 3) :=
    weightExtentM_all_eq 3 _ (by simp)
      (by
        intro e he
        rw [List.mem_singleton] at he
        subst he
        exact ⟨rfl, rfl⟩)
  have hif : (if cfgC9.showEdges then weightExtentM [edgeC9]
      else .ok ((none, none) : ExtPair)) = .ok (some 3, some 3) := by
    rw [if_pos (show cfgC9.showEdges = true from rfl)]
    exact hw
  have hx : nodeExtentsM [nodeC9a, nodeC9b] ⟨(none, none), (none, none), (none, none)⟩ =
      .ok ⟨(none, none), (some 1, some 2), (some 1, some 2)⟩ := by
    norm_num [nodeExtentsM, getXM, getYM, nodeC9a, nodeC9b, updExtWith, updLo, updHi]
  have hsc : mkNodeScales cfgC9 ⟨(none, none), (some 1, some 2), (some 1, some 2)⟩ =
      ⟨(some 1, some 2), (some 1, some 2), (none, none),
        some 0, some 2, some 0, some 2, (5, 30), 1⟩ := by
    norm_num [mkNodeScales, layoutAspectRatioOpt, layoutAspectRatio, cfgC9, jsCeil]
  have ht : nodeLoopM
      ⟨(some 1, some 2), (some 1, some 2), (none, none),
        some 0, some 2, some 0, some 2, (5, 30), 1⟩ [nodeC9a, nodeC9b] 0 =
      .ok ([(some 0, some 0, 0), (some 2, some 2, 1)],
        [(1, 1, 1, 1), (1, 1, 1, 1)], [none, none]) := by
    norm_num [nodeLoopM, getXM, getYM, nodeC9a, nodeC9b, nodePositionEntry, axisScale,
      scaleLinearQ, nodeColorEntry, nodeSizeEntry, sizeScale]
  have hew : edgeWeightOf (some 3, some 3) (1, 5) edgeC9 = some 1 :=
    edgeWeightOf_degenerate 3 (1, 5) edgeC9 rfl
  have hs1 : lookupNode [(1, ((some 0, some 0, 0) : PosEntry)), (2, (some 2, some 2, 1))]
      (jsOrId edgeC9.sourceID edgeC9.source) = .ok ((some 0, some 0, 0) : PosEntry) := rfl
  have hs2 : lookupNode [(1, ((some 0, some 0, 0) : PosEntry)), (2, (some 2, some 2, 1))]
      (jsOrId edgeC9.targetID edgeC9.target) = .ok ((some 2, some 2, 1) : PosEntry) := rfl
  have he : edgeLoopM [(1, ((some 0, some 0, 0) : PosEntry)), (2, (some 2, some 2, 1))]
      (some 3, some 3) (1, 5) [edgeC9] [] =
      .ok [(some 1, [(some 0, some 0, 0), (some 2, some 2, 1)])] := by
    simp only [edgeLoopM, hs1, hs2, hew, bucketAdd]
  have he2 : edgeLoopM
      ((List.map (fun n => n.id) [nodeC9a, nodeC9b]).zip
        [((some 0 : Option ℚ), (some 0 : Option ℚ), (0 : ℚ)),
          ((some 2 : Option ℚ), (some 2 : Option ℚ), (1 : ℚ))])
      (some 3, some 3) cfgC9.edgesWeightRange [edgeC9] [] =
      .ok [(some 1, [(some 0, some 0, 0), (some 2, some 2, 1)])] := he
  simp only [loadDataM, hif, hx, hsc, ht]
  rw [if_pos (show cfgC9.showEdges = true from rfl), he2]
  rfl

theorem claimC9_witness :
    weightExtentM [edgeC9] = .ok (some 3, some 3) ∧
    (∀ e ∈ ([edgeC9] : List EdgeRec),
      edgeWeightOf (some 3, some 3) cfgC9.edgesWeightRange e = some 1) ∧
    mC9.edgesPositionsByWeight.map Prod.fst = [some 1] :=
  claimC9_degenerate_weight_scale cfgC9 [nodeC9a, nodeC9b] [edgeC9] 3 mC9 rfl
    (by simp)
    (by
      intro e he
      rw [List.mem_singleton] at he
      subst he
      exact ⟨rfl, rfl⟩)
    loadDataM_cfgC9
